import Mathlib

/-! Encoder odometry node (`encoder_odometry/src/encoder_odom_node.cpp`).

A shallow embedding of the dead-reckoning integrator `DiffDrive` and of the replay loop of
`main`, together with the properties of them that were checked.

Conventions of the embedding.

* C++ `double`/`float` values are elements of a linearly ordered field `K`.  The definitions
  of the first part take the arithmetic to be exact (no rounding); they are polymorphic in
  `K`, so they are executable at `K = ℚ` and can be read at `K = ℝ`.
* The three things taken from `<cmath>` (`M_PI`, `cos`, `sin`) are a parameter `CMath K`;
  `CMath.mk Real.pi Real.cos Real.sin` is the intended reading with exact arithmetic.
* Where a property of the heading turns on rounding (its range, a round trip), the
  integrator is taken with rounded arithmetic: the definitions ending in `_fl` pass the
  result of every `double` operation through a rounding `fl`, and `binary64` with
  `double_math` is the rounding and the math library of IEEE 754 `double`.
* Values are taken to be finite: overflow, NaN and division by zero are outside the
  embedding.
* C++ `int` arguments are `Int`.
-/

namespace EncoderOdom

/-- The part of the C math library the node uses. -/
structure CMath (K : Type) where
  /-- The constant `M_PI`. -/
  M_PI : K
  /-- The function `cos`. -/
  cos : K → K
  /-- The function `sin`. -/
  sin : K → K

/-- The data members of `class DiffDrive` (source lines 62-74). -/
structure DiffDrive (K : Type) where
  /-- Distance between wheel centre points. -/
  axle_length : K
  /-- Wheel radius. -/
  wh_radius : K
  /-- Wheel angle per encoder tick. -/
  angle_per_tick : K
  world_x_trans : K
  world_y_trans : K
  world_z_rot : K
  delta_x_trans : K
  delta_y_trans : K
  delta_z_rot : K

section Integrator

variable {K : Type} [LinearOrderedField K]

/-- `DiffDrive::angle_add` (source lines 77-81), with exact additions; `angle_add_fl` below
is the same function with rounded additions. -/
def DiffDrive.angle_add (m : CMath K) (angle_1 angle_2 : K) : K :=
  if angle_1 + angle_2 ≥ 2 * m.M_PI then angle_1 + angle_2 - 2 * m.M_PI
  else if angle_1 + angle_2 < 0 then angle_1 + angle_2 + 2 * m.M_PI
  else angle_1 + angle_2

/-- The constructor `DiffDrive::DiffDrive` (source lines 84-91), named `new` here because a
declaration cannot carry the name of its own namespace; the six pose and velocity
members take their default member initialisers `= 0` (source lines 67-74). -/
def DiffDrive.new (m : CMath K) (wheel_radius : K) (encoder_increments : Int)
    (length_between_wheels : K) : DiffDrive K :=
  { angle_per_tick := 2 * m.M_PI / (encoder_increments : K)
    axle_length := length_between_wheels
    wh_radius := wheel_radius
    world_x_trans := 0
    world_y_trans := 0
    world_z_rot := 0
    delta_x_trans := 0
    delta_y_trans := 0
    delta_z_rot := 0 }

/-- The local variable `local_delta_trans` of `get_new_transform` (source lines 100-104). -/
def DiffDrive.local_delta_trans (s : DiffDrive K) (delta_r_encoder delta_l_encoder : Int) : K :=
  let delta_r_angle : K := (delta_r_encoder : K) * s.angle_per_tick
  let delta_l_angle : K := (delta_l_encoder : K) * s.angle_per_tick
  s.wh_radius / 2 * (delta_l_angle + delta_r_angle)

/-- `DiffDrive::get_new_transform` (source lines 94-120). -/
def DiffDrive.get_new_transform (m : CMath K) (s : DiffDrive K)
    (delta_r_encoder delta_l_encoder : Int) : DiffDrive K :=
  let delta_r_angle : K := (delta_r_encoder : K) * s.angle_per_tick
  let delta_l_angle : K := (delta_l_encoder : K) * s.angle_per_tick
  let local_delta_trans : K := s.local_delta_trans delta_r_encoder delta_l_encoder
  let delta_x_trans : K := local_delta_trans * m.cos s.world_z_rot
  let delta_y_trans : K := local_delta_trans * m.sin s.world_z_rot
  let delta_z_rot : K := s.wh_radius / s.axle_length * (delta_l_angle - delta_r_angle)
  { s with
    delta_x_trans := delta_x_trans
    delta_y_trans := delta_y_trans
    delta_z_rot := delta_z_rot
    world_x_trans := s.world_x_trans + delta_x_trans
    world_y_trans := s.world_y_trans + delta_y_trans
    world_z_rot := DiffDrive.angle_add m s.world_z_rot delta_z_rot }

/-- A sequence of `get_new_transform` calls, each pair being `(delta_r_encoder, delta_l_encoder)`. -/
def DiffDrive.run_steps (m : CMath K) (s : DiffDrive K) : List (Int × Int) → DiffDrive K
  | [] => s
  | (dr, dl) :: rest => DiffDrive.run_steps m (s.get_new_transform m dr dl) rest

/-- The integrator that `main` constructs (source lines 9-11 and 176):
`DiffDrive ddr_position(WHEEL_DIAMETER, ENCODER_TICKS, LENGTH_BETWEEN_WHEELS)`. -/
def ddr_position (m : CMath K) : DiffDrive K :=
  DiffDrive.new m (0.38 * m.M_PI) 100 1.466

end Integrator

/-! ## The replay loop of `main` -/

/-- `struct FileData` (source lines 13-18). -/
structure FileData where
  filenames : List String
  time : List Int
  encoder1 : List Int
  encoder2 : List Int

/-- The ways a run of the node stops without reaching the end of `main`. -/
inductive Halt where
  /-- `exit(10)` of `read_JSON`: the file could not be opened. -/
  | exit_10
  /-- `std::stoi` threw on a token. -/
  | stoi_failed
  /-- `operator[]` of a vector was applied to an index that is not below its size
  (undefined behaviour). -/
  | index_past_end
  /-- `vector::at` threw `std::out_of_range`, which nothing catches. -/
  | out_of_range
  /-- `int(x)` was applied to a floating value that is not finite or does not fit an `int`
  (undefined behaviour). -/
  | float_to_int
  /-- An `int` addition left the range of `int` (undefined behaviour). -/
  | int_overflow
  /-- A pacing loop `while(...){sleep(0.1);}` has not exited after the allowed number of
  evaluations of its condition. -/
  | still_waiting
  deriving DecidableEq, Repr

/-- How a run of the replay loop ended. -/
inductive Status where
  | finished
  /-- Stopped at source line 184, before the loop. -/
  | halted_at_start (h : Halt)
  /-- Stopped in the iteration with index `i`. -/
  | halted (i : Nat) (h : Halt)
  deriving DecidableEq, Repr

/-- The fields of the `nav_msgs::Odometry` message that `main` fills in (source lines
208-224).  The orientation is recorded by the yaw angle from which `get_quat` builds it
(`setRPY(0, 0, world_z_rot)`); the two covariances are the constant table. -/
structure Odometry (K : Type) where
  /-- `header.stamp`, in nanoseconds. -/
  stamp : Nat
  position_x : K
  position_y : K
  position_z : K
  yaw : K
  twist_linear_x : K
  twist_linear_y : K
  twist_angular_z : K

/-- What one completed iteration of the `for` loop did. -/
structure Iteration (K : Type) where
  /-- The `else` branch of `if(!vehicle_speed_adjusted)` (source line 195) was taken. -/
  speed_branch : Bool
  /-- First argument of the call of `get_new_transform` (source line 205). -/
  delta_r_encoder : Int
  /-- Second argument of the call of `get_new_transform` (source line 205). -/
  delta_l_encoder : Int
  /-- The message published (source line 227). -/
  odom : Odometry K

/-- The variables of `main` and the two globals that change while the loop runs. -/
structure MainState (K : Type) where
  ddr_position : DiffDrive K
  previous_time : Int
  vehicle_speed : K
  vehicle_speed_adjusted : Bool

/-- What the run receives from outside: the `/vehicle_speed` messages that each `spinOnce`
dispatches and the readings of `ros::Time::now()`, in nanoseconds. -/
structure Env (K : Type) where
  /-- Data of the messages dispatched by `ros::spinOnce()` in iteration `i`, oldest first,
  each as narrowed to `float` by the assignment of source line 164. -/
  speed_msgs : Nat → List K
  /-- Reading of the clock at source line 184. -/
  now_start : Nat
  /-- Reading of the clock at source line 193 or 199 of iteration `i`. -/
  now_pace : Nat → Nat
  /-- Reading of the clock at source line 202 of iteration `i`. -/
  now_stamp : Nat → Nat

/-- The token dispatch of `read_JSON` (source lines 27-50); `tokens` are the strings that
`getline(jsonfile, tp, '"')` yields in turn and `stoi` is `std::stoi`. -/
def read_JSON_loop (stoi : String → Option Int) :
    List String → Nat → FileData → Except Halt FileData
  | [], _, data => .ok data
  | tp :: rest, j, data =>
    if tp = ", " then read_JSON_loop stoi rest j data
    else if tp = "], [" then read_JSON_loop stoi rest (j + 1) data
    else if tp = "]]" then read_JSON_loop stoi rest j data
    else
      match j with
      | 0 => read_JSON_loop stoi rest j { data with filenames := data.filenames ++ [tp] }
      | 1 =>
        match stoi tp with
        | some v => read_JSON_loop stoi rest j { data with time := data.time ++ [v] }
        | none => .error Halt.stoi_failed
      | 2 =>
        match stoi tp with
        | some v => read_JSON_loop stoi rest j { data with encoder1 := data.encoder1 ++ [v] }
        | none => .error Halt.stoi_failed
      | 3 =>
        match stoi tp with
        | some v => read_JSON_loop stoi rest j { data with encoder2 := data.encoder2 ++ [v] }
        | none => .error Halt.stoi_failed
      | _ => read_JSON_loop stoi rest j data

/-- `read_JSON` (source lines 20-57); `file` is `none` when the file cannot be opened. -/
def read_JSON (stoi : String → Option Int) (file : Option (List String)) :
    Except Halt FileData :=
  match file with
  | some tokens => read_JSON_loop stoi tokens 0 ⟨[], [], [], []⟩
  | none => .error Halt.exit_10

/-- `v[i]` on a `std::vector<int>`. -/
def index (v : List Int) (i : Nat) : Except Halt Int :=
  match v[i]? with
  | some x => .ok x
  | none => .error Halt.index_past_end

/-- `v.at(i)` on a `std::vector<int>`. -/
def vector_at (v : List Int) (i : Nat) : Except Halt Int :=
  match v[i]? with
  | some x => .ok x
  | none => .error Halt.out_of_range

/-- `a + b` on two `int`s. -/
def add_int (a b : Int) : Except Halt Int :=
  if -2147483648 ≤ a + b ∧ a + b ≤ 2147483647 then .ok (a + b) else .error Halt.int_overflow

/-- The loop `while(previous_time > target){sleep(0.1);}` (source lines 192 and 198): neither
variable changes in the body, and `fuel` bounds the evaluations of the condition. -/
def wait_loop (previous_time target : Int) : Nat → Except Halt Unit
  | 0 => .error Halt.still_waiting
  | fuel + 1 => if previous_time > target then wait_loop previous_time target fuel else .ok ()

/-- The delta computation as the specification words it (section 4.2, step 2): the
difference between each cumulative tick value and the one retained before it, the first
retained value being `prev`. -/
def spec_deltas : Int → List Int → List Int
  | _, [] => []
  | prev, x :: xs => (x - prev) :: spec_deltas x xs

section Replay

variable {K : Type} [LinearOrderedField K] [FloorRing K]

/-- The conversion `int(x)`: truncation towards zero, defined when the result fits. -/
def to_int (x : K) : Except Halt Int :=
  let t : Int := if 0 ≤ x then ⌊x⌋ else ⌈x⌉
  if -2147483648 ≤ t ∧ t ≤ 2147483647 then .ok t else .error Halt.float_to_int

/-- The expression `int(ros::Time::now().toNSec()/1e-6)` (source lines 184, 193, 199) for a
clock reading of `nsec` nanoseconds. -/
def now_int (nsec : Nat) : Except Halt Int :=
  to_int ((nsec : K) / 1e-6)

/-- `vehicle_speed_callback` (source lines 163-166); `vehicle_vel` is the message data as
stored in the `float` variable `vehicle_speed`, that is, after its narrowing to `float`. -/
def vehicle_speed_callback (st : MainState K) (vehicle_vel : K) : MainState K :=
  { st with vehicle_speed := vehicle_vel, vehicle_speed_adjusted := true }

/-- `ros::spinOnce()` (source line 188): the callback runs once for each queued message. -/
def spinOnce (st : MainState K) (msgs : List K) : MainState K :=
  msgs.foldl vehicle_speed_callback st

/-- The initialiser of `time_to_next_encoder_tick` (source line 196).  A division by a zero
`vehicle_speed` gives an infinity or a NaN, which `int(...)` cannot convert. -/
def time_to_next_encoder_tick (m : CMath K) (d : FileData) (i : Nat) (vehicle_speed : K) :
    Except Halt Int := do
  let e ← index d.encoder1 (i + 1)
  if vehicle_speed = 0 then .error Halt.float_to_int
  else to_int (((e : K) * 0.38 * m.M_PI / 100) / vehicle_speed)

/-- The pacing block of the loop body (source lines 191-200): the branch taken and the new
value of `previous_time`. -/
def pacing (m : CMath K) (env : Env K) (fuel : Nat) (d : FileData) (i : Nat)
    (st : MainState K) : Except Halt (Bool × Int) :=
  if !st.vehicle_speed_adjusted then do
    let t ← index d.time i
    wait_loop st.previous_time t fuel
    let now ← now_int (K := K) (env.now_pace i)
    let p ← add_int t now
    pure (false, p)
  else do
    let w ← time_to_next_encoder_tick m d i st.vehicle_speed
    let t ← index d.time i
    let target ← add_int t w
    wait_loop st.previous_time target fuel
    let now ← now_int (K := K) (env.now_pace i)
    let p ← add_int target now
    pure (true, p)

/-- The body of the `for` loop (source lines 188-229) for index `i`. -/
def loop_body (m : CMath K) (env : Env K) (fuel : Nat) (d : FileData) (i : Nat)
    (st : MainState K) : Except Halt (MainState K × Iteration K) := do
  let st := spinOnce st (env.speed_msgs i)
  let (branch, previous_time) ← pacing m env fuel d i st
  let current_time := env.now_stamp i
  let a1 ← vector_at d.encoder1 i
  let a2 ← vector_at d.encoder2 i
  let ddr := st.ddr_position.get_new_transform m a1 a2
  let odom : Odometry K :=
    { stamp := current_time
      position_x := ddr.world_x_trans
      position_y := ddr.world_y_trans
      position_z := 0
      yaw := ddr.world_z_rot
      twist_linear_x := ddr.delta_x_trans
      twist_linear_y := ddr.delta_y_trans
      twist_angular_z := ddr.delta_z_rot }
  pure ({ st with ddr_position := ddr, previous_time := previous_time },
    { speed_branch := branch, delta_r_encoder := a1, delta_l_encoder := a2, odom := odom })

/-- The `for` loop (source lines 187-230) from index `i` on, with `k` indices left: the
iterations completed, in order, and how the loop ended. -/
def for_loop (m : CMath K) (env : Env K) (fuel : Nat) (d : FileData) :
    Nat → Nat → MainState K → List (Iteration K) × Status
  | 0, _, _ => ([], Status.finished)
  | k + 1, i, st =>
    match loop_body m env fuel d i st with
    | .error h => ([], Status.halted i h)
    | .ok (st', it) =>
      ((it :: (for_loop m env fuel d k (i + 1) st').1), (for_loop m env fuel d k (i + 1) st').2)

/-- The state in which `main` enters the loop (source lines 161-162, 176, 184). -/
def main_init (m : CMath K) (previous_time : Int) : MainState K :=
  { ddr_position := ddr_position m
    previous_time := previous_time
    vehicle_speed := 0
    vehicle_speed_adjusted := false }

/-- The part of `main` after `read_JSON` has returned `d` (source lines 183-230). -/
def main (m : CMath K) (env : Env K) (fuel : Nat) (d : FileData) :
    List (Iteration K) × Status :=
  match now_int (K := K) env.now_start with
  | .error h => ([], Status.halted_at_start h)
  | .ok previous_time => for_loop m env fuel d d.encoder1.length 0 (main_init m previous_time)

end Replay

/-! ## Trajectories -/

/-- Pose and velocity of an integrator, as the getters `get_x`, `get_y`, `get_delta_x`,
`get_delta_y`, `get_delta_z_rot` and the yaw read by `get_quat` give them (source lines
122-149). -/
def DiffDrive.pose_velocity {K : Type} (s : DiffDrive K) : K × K × K × K × K × K :=
  (s.world_x_trans, s.world_y_trans, s.world_z_rot,
    s.delta_x_trans, s.delta_y_trans, s.delta_z_rot)

/-- Pose and velocity carried by a published message. -/
def Odometry.pose_velocity {K : Type} (o : Odometry K) : K × K × K × K × K × K :=
  (o.position_x, o.position_y, o.yaw, o.twist_linear_x, o.twist_linear_y, o.twist_angular_z)

/-- The states after each call of a sequence of `get_new_transform` calls, each pair being
`(delta_r_encoder, delta_l_encoder)`. -/
def DiffDrive.trajectory {K : Type} [LinearOrderedField K] (m : CMath K) (s : DiffDrive K) :
    List (Int × Int) → List (DiffDrive K)
  | [] => []
  | (dr, dl) :: rest =>
    s.get_new_transform m dr dl :: DiffDrive.trajectory m (s.get_new_transform m dr dl) rest

/-! ## The integrator with rounded arithmetic

The same integrator with the result of every `double` operation passed through a rounding
operator `fl` (`fl = id` gives the exact definitions above).  Values are taken to be finite:
overflow, division by zero and subnormal results are outside the embedding.  The product
`2*M_PI` is not rounded: doubling is exact in binary floating point. -/

section RoundedIntegrator

variable {K : Type} [LinearOrderedField K]

/-- `DiffDrive::angle_add` (source lines 77-81) with rounded additions; the sum
`angle_1 + angle_2` is the same `double` at each of its occurrences. -/
def DiffDrive.angle_add_fl (m : CMath K) (fl : K → K) (angle_1 angle_2 : K) : K :=
  if fl (angle_1 + angle_2) ≥ 2 * m.M_PI then fl (fl (angle_1 + angle_2) - 2 * m.M_PI)
  else if fl (angle_1 + angle_2) < 0 then fl (fl (angle_1 + angle_2) + 2 * m.M_PI)
  else fl (angle_1 + angle_2)

/-- The constructor `DiffDrive::DiffDrive` (source lines 84-91) with a rounded division. -/
def DiffDrive.new_fl (m : CMath K) (fl : K → K) (wheel_radius : K) (encoder_increments : Int)
    (length_between_wheels : K) : DiffDrive K :=
  { angle_per_tick := fl (2 * m.M_PI / (encoder_increments : K))
    axle_length := length_between_wheels
    wh_radius := wheel_radius
    world_x_trans := 0
    world_y_trans := 0
    world_z_rot := 0
    delta_x_trans := 0
    delta_y_trans := 0
    delta_z_rot := 0 }

/-- The local variable `local_delta_trans` of `get_new_transform` (source lines 100-104) with
rounded operations. -/
def DiffDrive.local_delta_trans_fl (fl : K → K) (s : DiffDrive K)
    (delta_r_encoder delta_l_encoder : Int) : K :=
  let delta_r_angle : K := fl ((delta_r_encoder : K) * s.angle_per_tick)
  let delta_l_angle : K := fl ((delta_l_encoder : K) * s.angle_per_tick)
  fl (fl (s.wh_radius / 2) * fl (delta_l_angle + delta_r_angle))

/-- The value assigned to `delta_z_rot` by `get_new_transform` (source lines 100-101 and 111)
with rounded operations. -/
def DiffDrive.delta_z_rot_fl (fl : K → K) (s : DiffDrive K)
    (delta_r_encoder delta_l_encoder : Int) : K :=
  let delta_r_angle : K := fl ((delta_r_encoder : K) * s.angle_per_tick)
  let delta_l_angle : K := fl ((delta_l_encoder : K) * s.angle_per_tick)
  fl (fl (s.wh_radius / s.axle_length) * fl (delta_l_angle - delta_r_angle))

/-- `DiffDrive::get_new_transform` (source lines 94-120) with rounded operations. -/
def DiffDrive.get_new_transform_fl (m : CMath K) (fl : K → K) (s : DiffDrive K)
    (delta_r_encoder delta_l_encoder : Int) : DiffDrive K :=
  let local_delta_trans : K := s.local_delta_trans_fl fl delta_r_encoder delta_l_encoder
  let delta_x_trans : K := fl (local_delta_trans * m.cos s.world_z_rot)
  let delta_y_trans : K := fl (local_delta_trans * m.sin s.world_z_rot)
  let delta_z_rot : K := s.delta_z_rot_fl fl delta_r_encoder delta_l_encoder
  { s with
    delta_x_trans := delta_x_trans
    delta_y_trans := delta_y_trans
    delta_z_rot := delta_z_rot
    world_x_trans := fl (s.world_x_trans + delta_x_trans)
    world_y_trans := fl (s.world_y_trans + delta_y_trans)
    world_z_rot := DiffDrive.angle_add_fl m fl s.world_z_rot delta_z_rot }

/-- A sequence of `get_new_transform` calls with rounded operations, each pair being
`(delta_r_encoder, delta_l_encoder)`. -/
def DiffDrive.run_steps_fl (m : CMath K) (fl : K → K) (s : DiffDrive K) :
    List (Int × Int) → DiffDrive K
  | [] => s
  | (dr, dl) :: rest =>
    DiffDrive.run_steps_fl m fl (s.get_new_transform_fl m fl dr dl) rest

/-- Every call of the sequence, with rounded operations, turns the heading by less than a
full revolution. -/
def DiffDrive.small_rotations_fl (m : CMath K) (fl : K → K) (s : DiffDrive K) :
    List (Int × Int) → Prop
  | [] => True
  | (dr, dl) :: rest =>
    |s.delta_z_rot_fl fl dr dl| < 2 * m.M_PI ∧
      DiffDrive.small_rotations_fl m fl (s.get_new_transform_fl m fl dr dl) rest

/-- The integrator that `main` constructs (source lines 9-11 and 176) with rounded
operations: the literals `0.38` and `1.466` and the product `0.38*M_PI` are rounded. -/
def ddr_position_fl (m : CMath K) (fl : K → K) : DiffDrive K :=
  DiffDrive.new_fl m fl (fl (fl 0.38 * m.M_PI)) 100 (fl 1.466)

end RoundedIntegrator

section Binary64

variable {K : Type} [LinearOrderedField K] [FloorRing K]

/-- Rounding to the nearest integer, ties to the even one. -/
def rne (y : K) : Int :=
  if y - (⌊y⌋ : K) < 1 / 2 then ⌊y⌋
  else if 1 / 2 < y - (⌊y⌋ : K) then ⌊y⌋ + 1
  else if ⌊y⌋ % 2 = 0 then ⌊y⌋ else ⌊y⌋ + 1

/-- Rounding of a positive value to 53 significant bits, to nearest, ties to even. -/
def round_pos (x : K) : K :=
  (rne (x / (2 : K) ^ (Int.log 2 x - 52)) : K) * (2 : K) ^ (Int.log 2 x - 52)

/-- The rounding of IEEE 754 binary64 (`double`) operations, to nearest with ties to even, on
sign and magnitude, for results in the normal range. -/
def binary64 (x : K) : K :=
  if x = 0 then 0 else if 0 < x then round_pos x else -round_pos (-x)

/-- The C math library in `double`: `M_PI` is the `double` nearest to `π`,
`884279719003555 / 2^48`, and `cos`, `sin` give the given functions rounded. -/
def double_math (cos sin : K → K) : CMath K :=
  { M_PI := 884279719003555 / 281474976710656
    cos := fun x => binary64 (cos x)
    sin := fun x => binary64 (sin x) }

end Binary64

/-! ## Lemmas on the integrator -/

section IntegratorLemmas

variable {K : Type} [LinearOrderedField K]

/-- Adding a zero turn to a heading in `[0, 2π)` returns the heading. -/
theorem angle_add_zero_of_range (m : CMath K) (a : K) (ha0 : 0 ≤ a) (ha1 : a < 2 * m.M_PI) :
    DiffDrive.angle_add m a 0 = a := by
  unfold DiffDrive.angle_add
  rw [add_zero, if_neg (not_le.mpr ha1), if_neg (not_lt.mpr ha0)]

end IntegratorLemmas

/-- With the geometry of `main`, a call with 1000 more left ticks than right ticks turns by
more than two revolutions. -/
theorem big_turn_rotation :
    4 * Real.pi ≤
      ((ddr_position (CMath.mk Real.pi Real.cos Real.sin)).get_new_transform
        (CMath.mk Real.pi Real.cos Real.sin) 0 1000).delta_z_rot := by
  have hpi := Real.pi_gt_three
  simp only [DiffDrive.get_new_transform, ddr_position, DiffDrive.new]
  norm_num
  have hring : 19 / 50 * Real.pi / (733 / 500) * (1000 * (2 * Real.pi / 100))
      = Real.pi * (Real.pi * (3800 / 733)) := by ring
  rw [hring]
  nlinarith [Real.pi_pos]

/-- After that call the heading of the integrator of `main` is at least `2π`. -/
theorem big_turn_heading :
    2 * Real.pi ≤
      (DiffDrive.run_steps (CMath.mk Real.pi Real.cos Real.sin)
        (ddr_position (CMath.mk Real.pi Real.cos Real.sin)) [(0, 1000)]).world_z_rot := by
  have h := big_turn_rotation
  have hpi := Real.pi_pos
  simp only [DiffDrive.run_steps]
  have hθ : ((ddr_position (CMath.mk Real.pi Real.cos Real.sin)).get_new_transform
        (CMath.mk Real.pi Real.cos Real.sin) 0 1000).world_z_rot
      = DiffDrive.angle_add (CMath.mk Real.pi Real.cos Real.sin) 0
        ((ddr_position (CMath.mk Real.pi Real.cos Real.sin)).get_new_transform
        (CMath.mk Real.pi Real.cos Real.sin) 0 1000).delta_z_rot := rfl
  rw [hθ]
  unfold DiffDrive.angle_add
  rw [if_pos (by simp only [zero_add]; show 2 * Real.pi ≤ _; linarith)]
  simp only [zero_add]
  linarith

/-! ## Lemmas on the replay loop -/

/-- A successful `v[i]` returns the element stored at `i`. -/
theorem index_ok {v : List Int} {i : Nat} {x : Int} (h : index v i = .ok x) :
    v[i]? = some x := by
  unfold index at h
  cases hv : v[i]? with
  | none => rw [hv] at h; cases h
  | some y => rw [hv] at h; cases h; rfl

/-- A successful `v.at(i)` returns the element stored at `i`. -/
theorem vector_at_ok {v : List Int} {i : Nat} {x : Int} (h : vector_at v i = .ok x) :
    v[i]? = some x := by
  unfold vector_at at h
  cases hv : v[i]? with
  | none => rw [hv] at h; cases h
  | some y => rw [hv] at h; cases h; rfl

/-- A sequenced computation succeeds exactly when both of its parts do. -/
theorem bind_ok_iff {ε α β : Type} (x : Except ε α) (f : α → Except ε β) (b : β) :
    (x >>= f) = Except.ok b ↔ ∃ a, x = Except.ok a ∧ f a = Except.ok b := by
  cases x <;> simp [bind, Except.bind]

/-- A returned value is the value given. -/
theorem pure_ok_iff {ε α : Type} (a b : α) :
    (pure a : Except ε α) = Except.ok b ↔ a = b := by
  simp [pure, Except.pure]

section SpinLemmas

variable {K : Type}

/-- The flag `vehicle_speed_adjusted`, once set, is still set after `spinOnce`. -/
theorem spinOnce_latched (st : MainState K) (msgs : List K)
    (h : st.vehicle_speed_adjusted = true) :
    (spinOnce st msgs).vehicle_speed_adjusted = true := by
  unfold spinOnce
  induction msgs generalizing st with
  | nil => exact h
  | cons v rest ih => exact ih (vehicle_speed_callback st v) rfl

/-- After `spinOnce` the flag is set exactly when it was set before or a message came. -/
theorem spinOnce_flag (st : MainState K) (msgs : List K) :
    (spinOnce st msgs).vehicle_speed_adjusted
      = (st.vehicle_speed_adjusted || !msgs.isEmpty) := by
  cases msgs with
  | nil => simp [spinOnce]
  | cons v rest =>
    have h := spinOnce_latched (vehicle_speed_callback st v) rest rfl
    simp only [spinOnce, List.foldl] at h ⊢
    rw [h]
    simp

/-- The callbacks of `spinOnce` leave the integrator alone. -/
theorem spinOnce_ddr_position (st : MainState K) (msgs : List K) :
    (spinOnce st msgs).ddr_position = st.ddr_position := by
  unfold spinOnce
  induction msgs generalizing st with
  | nil => rfl
  | cons v rest ih => exact ih (vehicle_speed_callback st v)

/-- The callbacks of `spinOnce` leave `previous_time` alone. -/
theorem spinOnce_previous_time (st : MainState K) (msgs : List K) :
    (spinOnce st msgs).previous_time = st.previous_time := by
  unfold spinOnce
  induction msgs generalizing st with
  | nil => rfl
  | cons v rest ih => exact ih (vehicle_speed_callback st v)

end SpinLemmas

section ReplayLemmas

variable {K : Type} [LinearOrderedField K] [FloorRing K]

/-- A pacing block that completes took the branch the flag selects and read `time[i]`. -/
theorem pacing_ok (m : CMath K) (env : Env K) (fuel : Nat) (d : FileData) (i : Nat)
    (st : MainState K) (p : Bool × Int) (h : pacing m env fuel d i st = .ok p) :
    p.1 = st.vehicle_speed_adjusted ∧ ∃ t, d.time[i]? = some t := by
  unfold pacing at h
  cases hf : st.vehicle_speed_adjusted with
  | false =>
    rw [hf] at h
    simp only [Bool.not_false, if_true, bind_ok_iff, pure_ok_iff] at h
    obtain ⟨t, ht, _, _, now, _, q, _, hp⟩ := h
    exact ⟨by rw [← hp], t, index_ok ht⟩
  | true =>
    rw [hf] at h
    simp only [Bool.not_true, Bool.false_eq_true, if_false, bind_ok_iff, pure_ok_iff] at h
    obtain ⟨w, _, t, ht, target, _, _, _, now, _, q, _, hp⟩ := h
    exact ⟨by rw [← hp], t, index_ok ht⟩

/-- What a completed loop body has done. -/
theorem loop_body_ok (m : CMath K) (env : Env K) (fuel : Nat) (d : FileData) (i : Nat)
    (st st' : MainState K) (it : Iteration K)
    (h : loop_body m env fuel d i st = .ok (st', it)) :
    it.speed_branch = (spinOnce st (env.speed_msgs i)).vehicle_speed_adjusted ∧
    st'.vehicle_speed_adjusted = (spinOnce st (env.speed_msgs i)).vehicle_speed_adjusted ∧
    d.encoder1[i]? = some it.delta_r_encoder ∧
    d.encoder2[i]? = some it.delta_l_encoder ∧
    (∃ t, d.time[i]? = some t) ∧
    st'.ddr_position
      = st.ddr_position.get_new_transform m it.delta_r_encoder it.delta_l_encoder ∧
    it.odom.stamp = env.now_stamp i := by
  unfold loop_body at h
  simp only [bind_ok_iff, pure_ok_iff] at h
  obtain ⟨p, hp, a1, h1, a2, h2, hres⟩ := h
  obtain ⟨hb, ht⟩ := pacing_ok m env fuel d i _ p hp
  obtain ⟨rfl, rfl⟩ := Prod.mk.inj hres
  exact ⟨hb, rfl, vector_at_ok h1, vector_at_ok h2, ht,
    by simp only [spinOnce_ddr_position], rfl⟩

/-- Unfolding of the loop at an iteration that completes. -/
theorem for_loop_ok (m : CMath K) (env : Env K) (fuel : Nat) (d : FileData) (k i : Nat)
    (st st' : MainState K) (it : Iteration K)
    (h : loop_body m env fuel d i st = .ok (st', it)) :
    for_loop m env fuel d (k + 1) i st
      = (it :: (for_loop m env fuel d k (i + 1) st').1,
          (for_loop m env fuel d k (i + 1) st').2) := by
  rw [for_loop, h]

/-- Unfolding of the loop at an iteration that stops the run. -/
theorem for_loop_error (m : CMath K) (env : Env K) (fuel : Nat) (d : FileData) (k i : Nat)
    (st : MainState K) (e : Halt) (h : loop_body m env fuel d i st = .error e) :
    for_loop m env fuel d (k + 1) i st = ([], Status.halted i e) := by
  rw [for_loop, h]

/-- The `j`-th completed iteration of a loop started at index `i` is a completed loop body
for index `i + j`. -/
theorem for_loop_get (m : CMath K) (env : Env K) (fuel : Nat) (d : FileData) :
    ∀ (k i : Nat) (st : MainState K) (j : Nat) (it : Iteration K),
      (for_loop m env fuel d k i st).1[j]? = some it →
      ∃ st0 st1, loop_body m env fuel d (i + j) st0 = .ok (st1, it) := by
  intro k
  induction k with
  | zero => intro i st j it h; simp [for_loop] at h
  | succ k ih =>
    intro i st j it h
    cases hb : loop_body m env fuel d i st with
    | error e => rw [for_loop_error m env fuel d k i st e hb] at h; simp at h
    | ok r =>
      obtain ⟨st', it0⟩ := r
      rw [for_loop_ok m env fuel d k i st st' it0 hb] at h
      cases j with
      | zero =>
        simp only [List.getElem?_cons_zero, Option.some.injEq] at h
        subst h
        exact ⟨st, st', hb⟩
      | succ j =>
        simp only [List.getElem?_cons_succ] at h
        obtain ⟨st0, st1, h01⟩ := ih (i + 1) st' j it h
        refine ⟨st0, st1, ?_⟩
        rw [← h01]
        congr 1
        omega

/-- A loop entered with the flag set takes the speed branch in every iteration. -/
theorem for_loop_latched (m : CMath K) (env : Env K) (fuel : Nat) (d : FileData) :
    ∀ (k i : Nat) (st : MainState K), st.vehicle_speed_adjusted = true →
      ∀ it ∈ (for_loop m env fuel d k i st).1, it.speed_branch = true := by
  intro k
  induction k with
  | zero => intro i st _ it hit; simp [for_loop] at hit
  | succ k ih =>
    intro i st hst it hit
    cases hb : loop_body m env fuel d i st with
    | error e => rw [for_loop_error m env fuel d k i st e hb] at hit; simp at hit
    | ok r =>
      obtain ⟨st', it0⟩ := r
      rw [for_loop_ok m env fuel d k i st st' it0 hb] at hit
      obtain ⟨h1, h2, -⟩ := loop_body_ok m env fuel d i st st' it0 hb
      have hflag := spinOnce_latched st (env.speed_msgs i) hst
      rcases List.mem_cons.mp hit with rfl | hrest
      · rw [h1, hflag]
      · exact ih (i + 1) st' (by rw [h2, hflag]) it hrest

/-- In a loop, an iteration on the speed branch is followed by such iterations only. -/
theorem for_loop_pairwise (m : CMath K) (env : Env K) (fuel : Nat) (d : FileData) :
    ∀ (k i : Nat) (st : MainState K),
      List.Pairwise (fun a b : Iteration K => a.speed_branch = true → b.speed_branch = true)
        (for_loop m env fuel d k i st).1 := by
  intro k
  induction k with
  | zero => intro i st; simp [for_loop]
  | succ k ih =>
    intro i st
    cases hb : loop_body m env fuel d i st with
    | error e => rw [for_loop_error m env fuel d k i st e hb]; exact List.Pairwise.nil
    | ok r =>
      obtain ⟨st', it0⟩ := r
      rw [for_loop_ok m env fuel d k i st st' it0 hb]
      obtain ⟨h1, h2, -⟩ := loop_body_ok m env fuel d i st st' it0 hb
      refine List.pairwise_cons.mpr ⟨?_, ih (i + 1) st'⟩
      intro b hbmem h0
      exact for_loop_latched m env fuel d k (i + 1) st' (by rw [h2, ← h1, h0]) b hbmem

/-- A loop that runs to its end has read `encoder2` with `at` at each of its indices. -/
theorem for_loop_finished (m : CMath K) (env : Env K) (fuel : Nat) (d : FileData) :
    ∀ (k i : Nat) (st : MainState K), (for_loop m env fuel d k i st).2 = Status.finished →
      ∀ j, i ≤ j → j < i + k → j < d.encoder2.length := by
  intro k
  induction k with
  | zero => intro i st _ j h1 h2; omega
  | succ k ih =>
    intro i st hfin j h1 h2
    cases hb : loop_body m env fuel d i st with
    | error e => rw [for_loop_error m env fuel d k i st e hb] at hfin; cases hfin
    | ok r =>
      obtain ⟨st', it0⟩ := r
      rw [for_loop_ok m env fuel d k i st st' it0 hb] at hfin
      obtain ⟨-, -, -, he2, -⟩ := loop_body_ok m env fuel d i st st' it0 hb
      rcases Nat.eq_or_lt_of_le h1 with rfl | hlt
      · exact (List.getElem?_eq_some_iff.mp he2).1
      · exact ih (i + 1) st' hfin j hlt (by omega)

/-- The loop body reads of the dataset only `encoder1`, `time[i]` and `encoder2[i]`. -/
theorem loop_body_congr (m : CMath K) (env : Env K) (fuel : Nat) (d d' : FileData) (i : Nat)
    (st : MainState K) (h1 : d'.encoder1 = d.encoder1) (ht : d'.time[i]? = d.time[i]?)
    (h2 : d'.encoder2[i]? = d.encoder2[i]?) :
    loop_body m env fuel d' i st = loop_body m env fuel d i st := by
  simp only [loop_body, pacing, time_to_next_encoder_tick, index, vector_at, h1, ht, h2]

/-- Two datasets that agree on `encoder1` and, at the indices of the loop, on `time` and
`encoder2` are replayed alike. -/
theorem for_loop_congr (m : CMath K) (env : Env K) (fuel : Nat) (d d' : FileData)
    (h1 : d'.encoder1 = d.encoder1) :
    ∀ (k i : Nat) (st : MainState K),
      (∀ j, i ≤ j → j < i + k →
        d'.time[j]? = d.time[j]? ∧ d'.encoder2[j]? = d.encoder2[j]?) →
      for_loop m env fuel d' k i st = for_loop m env fuel d k i st := by
  intro k
  induction k with
  | zero => intro i st _; rfl
  | succ k ih =>
    intro i st h
    have hb := loop_body_congr m env fuel d d' i st h1 (h i (le_refl i) (by omega)).1
      (h i (le_refl i) (by omega)).2
    rw [for_loop, for_loop, hb]
    cases loop_body m env fuel d i st with
    | error e => rfl
    | ok r =>
      obtain ⟨st', it⟩ := r
      simp only []
      rw [ih (i + 1) st' (fun j hj1 hj2 => h j (by omega) (by omega))]

/-- Entries of `time` and `encoder2` beyond the length of `encoder1` do not change a run. -/
theorem main_cut (m : CMath K) (env : Env K) (fuel : Nat) (d : FileData) :
    main m env fuel
        { d with time := d.time.take d.encoder1.length,
                 encoder2 := d.encoder2.take d.encoder1.length }
      = main m env fuel d := by
  unfold main
  cases now_int (K := K) env.now_start with
  | error e => rfl
  | ok p =>
    simp only []
    exact for_loop_congr m env fuel d
      { d with time := d.time.take d.encoder1.length,
               encoder2 := d.encoder2.take d.encoder1.length }
      rfl d.encoder1.length 0 (main_init m p)
      (fun j _ hj => by
        have hlt : j < d.encoder1.length := by omega
        exact ⟨List.getElem?_take_of_lt hlt, List.getElem?_take_of_lt hlt⟩)

/-- A run that reaches the end of the loop had `encoder2` at least as long as `encoder1`. -/
theorem main_finished_lengths (m : CMath K) (env : Env K) (fuel : Nat) (d : FileData)
    (h : (main m env fuel d).2 = Status.finished) :
    d.encoder1.length ≤ d.encoder2.length := by
  unfold main at h
  cases hn : now_int (K := K) env.now_start with
  | error e => rw [hn] at h; cases h
  | ok p =>
    rw [hn] at h
    simp only [] at h
    rcases Nat.eq_zero_or_pos d.encoder1.length with h0 | hpos
    · rw [h0]; exact Nat.zero_le _
    · have := for_loop_finished m env fuel d d.encoder1.length 0 (main_init m p) h
        (d.encoder1.length - 1) (Nat.zero_le _) (by omega)
      omega

end ReplayLemmas

/-- A clock that reads zero converts to the `int` zero. -/
theorem now_int_zero : now_int (K := ℝ) 0 = Except.ok 0 := by
  simp [now_int, to_int]

/-- For 100 ticks and a speed of `-1` the wait of the speed branch is `-1`. -/
theorem wait_at_minus_one :
    time_to_next_encoder_tick (CMath.mk Real.pi Real.cos Real.sin)
      ⟨[], [5, 9], [0, 100], [0, 0]⟩ 0 (-1) = Except.ok (-1) := by
  have h3 := Real.pi_gt_three
  have h4 := Real.pi_le_four
  have hx : ((100 : ℤ) : ℝ) * 0.38 * Real.pi / 100 / (-1) = -(0.38 * Real.pi) := by
    push_cast; ring
  have hneg : ¬ (0 : ℝ) ≤ -(0.38 * Real.pi) := by
    intro h; nlinarith
  have hceil : ⌈-(0.38 * Real.pi)⌉ = -1 := by
    rw [Int.ceil_eq_iff]
    constructor <;> push_cast <;> nlinarith
  simp only [time_to_next_encoder_tick, index, to_int, bind, Except.bind]
  simp only [List.getElem?_cons_succ, List.getElem?_cons_zero, Nat.zero_add]
  rw [if_neg (by norm_num), hx, if_neg hneg, hceil]
  rfl

/-! ## The integrator: translation, heading range, special inputs -/

section IntegratorClaims

variable {K : Type} [LinearOrderedField K]

/-- C1: the constructor sets `angle_per_tick = 2π / encoder_increments`; for every state `s`
and tick deltas `dr`, `dl`, the forward displacement of `get_new_transform` is
`wh_radius / 2 * angle_per_tick * (dl + dr)`, the velocity is that displacement times the
cosine and the sine of the heading before the call, and the position is moved by the velocity.
The velocity is the same from a second state `s'` with the same geometry and heading,
whatever its position and previous velocity. -/
theorem get_new_transform_translation (m : CMath K) (s s' : DiffDrive K) (dr dl : Int)
    (hr : s'.wh_radius = s.wh_radius) (hl : s'.axle_length = s.axle_length)
    (ht : s'.angle_per_tick = s.angle_per_tick) (hz : s'.world_z_rot = s.world_z_rot) :
    (∀ (r L : K) (n : Int), (DiffDrive.new m r n L).angle_per_tick = 2 * m.M_PI / (n : K)) ∧
    s.local_delta_trans dr dl = s.wh_radius / 2 * s.angle_per_tick * ((dl : K) + (dr : K)) ∧
    (s.get_new_transform m dr dl).delta_x_trans
      = s.local_delta_trans dr dl * m.cos s.world_z_rot ∧
    (s.get_new_transform m dr dl).delta_y_trans
      = s.local_delta_trans dr dl * m.sin s.world_z_rot ∧
    (s.get_new_transform m dr dl).world_x_trans
      = s.world_x_trans + (s.get_new_transform m dr dl).delta_x_trans ∧
    (s.get_new_transform m dr dl).world_y_trans
      = s.world_y_trans + (s.get_new_transform m dr dl).delta_y_trans ∧
    (s'.get_new_transform m dr dl).delta_x_trans = (s.get_new_transform m dr dl).delta_x_trans ∧
    (s'.get_new_transform m dr dl).delta_y_trans = (s.get_new_transform m dr dl).delta_y_trans ∧
    (s'.get_new_transform m dr dl).delta_z_rot = (s.get_new_transform m dr dl).delta_z_rot := by
  refine ⟨fun _ _ _ => rfl, ?_, rfl, rfl, rfl, rfl, ?_, ?_, ?_⟩
  · simp only [DiffDrive.local_delta_trans]; ring
  · simp only [DiffDrive.get_new_transform, DiffDrive.local_delta_trans, hr, ht, hz]
  · simp only [DiffDrive.get_new_transform, DiffDrive.local_delta_trans, hr, ht, hz]
  · simp only [DiffDrive.get_new_transform, hr, hl, ht]

/-- C7: for every integer `d` and every state, `get_new_transform(d, d)` gives
`delta_z_rot = 0` and a forward displacement of `wh_radius * angle_per_tick * d`, and the
velocity and the change of position are that displacement times the cosine and the sine of
the heading before the call. -/
theorem get_new_transform_straight (m : CMath K) (s : DiffDrive K) (d : Int) :
    (s.get_new_transform m d d).delta_z_rot = 0 ∧
    s.local_delta_trans d d = s.wh_radius * s.angle_per_tick * (d : K) ∧
    (s.get_new_transform m d d).delta_x_trans
      = s.wh_radius * s.angle_per_tick * (d : K) * m.cos s.world_z_rot ∧
    (s.get_new_transform m d d).delta_y_trans
      = s.wh_radius * s.angle_per_tick * (d : K) * m.sin s.world_z_rot ∧
    (s.get_new_transform m d d).world_x_trans
      = s.world_x_trans + s.wh_radius * s.angle_per_tick * (d : K) * m.cos s.world_z_rot ∧
    (s.get_new_transform m d d).world_y_trans
      = s.world_y_trans + s.wh_radius * s.angle_per_tick * (d : K) * m.sin s.world_z_rot := by
  have hloc : s.local_delta_trans d d = s.wh_radius * s.angle_per_tick * (d : K) := by
    simp only [DiffDrive.local_delta_trans]; ring
  refine ⟨?_, hloc, ?_, ?_, ?_, ?_⟩
  · simp only [DiffDrive.get_new_transform, sub_self, mul_zero]
  all_goals simp only [DiffDrive.get_new_transform, hloc]

/-- C8: with a positive `M_PI`, wheel radius, axle length and number of ticks per
revolution `n`, for every nonzero `d` and every state, `get_new_transform(d, -d)` gives
`delta_x_trans = delta_y_trans = 0`, leaves `x` and `y` unchanged and gives
`delta_z_rot ≠ 0`. -/
theorem get_new_transform_pure_rotation (m : CMath K) (s : DiffDrive K) (n d : Int)
    (hpi : 0 < m.M_PI) (hr : 0 < s.wh_radius) (hl : 0 < s.axle_length) (hn : 0 < n)
    (ht : s.angle_per_tick = 2 * m.M_PI / (n : K)) (hd : d ≠ 0) :
    (s.get_new_transform m d (-d)).delta_x_trans = 0 ∧
    (s.get_new_transform m d (-d)).delta_y_trans = 0 ∧
    (s.get_new_transform m d (-d)).world_x_trans = s.world_x_trans ∧
    (s.get_new_transform m d (-d)).world_y_trans = s.world_y_trans ∧
    (s.get_new_transform m d (-d)).delta_z_rot ≠ 0 := by
  have hloc : s.local_delta_trans d (-d) = 0 := by
    simp only [DiffDrive.local_delta_trans, Int.cast_neg]; ring
  refine ⟨?_, ?_, ?_, ?_, ?_⟩
  · simp only [DiffDrive.get_new_transform, hloc, zero_mul]
  · simp only [DiffDrive.get_new_transform, hloc, zero_mul]
  · simp only [DiffDrive.get_new_transform, hloc, zero_mul, add_zero]
  · simp only [DiffDrive.get_new_transform, hloc, zero_mul, add_zero]
  · have hn' : (0 : K) < (n : K) := by exact_mod_cast hn
    have hd' : (d : K) ≠ 0 := by exact_mod_cast hd
    have hapt : s.angle_per_tick ≠ 0 := by
      rw [ht]; exact div_ne_zero (mul_ne_zero two_ne_zero hpi.ne') hn'.ne'
    have hrl : s.wh_radius / s.axle_length ≠ 0 := div_ne_zero hr.ne' hl.ne'
    have hz : (s.get_new_transform m d (-d)).delta_z_rot
        = s.wh_radius / s.axle_length * (-2 * ((d : K) * s.angle_per_tick)) := by
      simp only [DiffDrive.get_new_transform, Int.cast_neg]; ring
    rw [hz]
    exact mul_ne_zero hrl (mul_ne_zero (by norm_num) (mul_ne_zero hd' hapt))

end IntegratorClaims

/-- Witness of C1: two integrators with the geometry of `main` and the same heading, with
different positions and previous velocities, get the same rotation velocity from the
deltas `(7, 9)`. -/
theorem get_new_transform_translation_witness :
    ({ ddr_position (CMath.mk Real.pi Real.cos Real.sin) with
        world_x_trans := 1, world_y_trans := 2, delta_x_trans := 3, delta_z_rot := 4 }
      : DiffDrive ℝ).world_z_rot
      = (ddr_position (CMath.mk Real.pi Real.cos Real.sin)).world_z_rot ∧
    (({ ddr_position (CMath.mk Real.pi Real.cos Real.sin) with
        world_x_trans := 1, world_y_trans := 2, delta_x_trans := 3, delta_z_rot := 4 }
      : DiffDrive ℝ).get_new_transform (CMath.mk Real.pi Real.cos Real.sin) 7 9).delta_z_rot
      = ((ddr_position (CMath.mk Real.pi Real.cos Real.sin)).get_new_transform
          (CMath.mk Real.pi Real.cos Real.sin) 7 9).delta_z_rot :=
  ⟨rfl, (get_new_transform_translation (CMath.mk Real.pi Real.cos Real.sin)
    (ddr_position (CMath.mk Real.pi Real.cos Real.sin))
    { ddr_position (CMath.mk Real.pi Real.cos Real.sin) with
        world_x_trans := 1, world_y_trans := 2, delta_x_trans := 3, delta_z_rot := 4 }
    7 9 rfl rfl rfl rfl).2.2.2.2.2.2.2.2⟩

/-- Counterexample to C2: with the geometry of `main`, one call with deltas
`(0, 1000)` from the initial pose leaves a heading that is not below `2π`. -/
theorem heading_leaves_range :
    ¬ ((DiffDrive.run_steps (CMath.mk Real.pi Real.cos Real.sin)
        (ddr_position (CMath.mk Real.pi Real.cos Real.sin)) [(0, 1000)]).world_z_rot
      < 2 * Real.pi) :=
  not_lt.mpr big_turn_heading

/-- Witness of C8: the geometry `0.19π`, `100`, `1.466` and `d = 1`. -/
theorem get_new_transform_pure_rotation_witness :
    (0 : ℝ) < 0.19 * Real.pi ∧ (0 : ℝ) < 1.466 ∧ (0 : ℤ) < 100 ∧
    ((DiffDrive.new (CMath.mk Real.pi Real.cos Real.sin) (0.19 * Real.pi) 100
        1.466).get_new_transform (CMath.mk Real.pi Real.cos Real.sin) 1 (-1)).delta_z_rot ≠ 0 :=
  ⟨mul_pos (by norm_num) Real.pi_pos, by norm_num, by norm_num,
    (get_new_transform_pure_rotation (CMath.mk Real.pi Real.cos Real.sin)
      (DiffDrive.new (CMath.mk Real.pi Real.cos Real.sin) (0.19 * Real.pi) 100 1.466) 100 1
      Real.pi_pos (mul_pos (by norm_num) Real.pi_pos) (by norm_num [DiffDrive.new])
      (by norm_num) rfl (by norm_num)).2.2.2.2⟩

/-! ## The replay loop: deltas, the speed branch, dataset lengths -/

section ReplayClaims

variable {K : Type} [LinearOrderedField K] [FloorRing K]

/-- C3, as amended: in every run, the argument pairs that the iterations pass to
`get_new_transform` are, in order, the pairs `(encoder1[i], encoder2[i])` of the recorded
values themselves, for the indices `i` of the iterations completed; no difference with an
earlier value is taken. -/
theorem replay_passes_encoder_values (m : CMath K) (env : Env K) (fuel : Nat) (d : FileData) :
    (main m env fuel d).1.map (fun it => (it.delta_r_encoder, it.delta_l_encoder))
      = (d.encoder1.zip d.encoder2).take (main m env fuel d).1.length := by
  apply List.ext_getElem?
  intro j
  rw [List.getElem?_map]
  cases hj : (main m env fuel d).1[j]? with
  | none =>
    rw [List.getElem?_take_eq_none (List.getElem?_eq_none_iff.mp hj)]
    rfl
  | some it =>
    have hlt : j < (main m env fuel d).1.length := (List.getElem?_eq_some_iff.mp hj).1
    rw [List.getElem?_take_of_lt hlt]
    unfold main at hj
    cases hn : now_int (K := K) env.now_start with
    | error e => rw [hn] at hj; simp at hj
    | ok p =>
      rw [hn] at hj
      simp only [] at hj
      obtain ⟨st0, st1, hb⟩ := for_loop_get m env fuel d _ 0 _ j it hj
      rw [Nat.zero_add] at hb
      obtain ⟨-, -, he1, he2, -⟩ := loop_body_ok m env fuel d j st0 st1 it hb
      symm
      exact List.getElem?_zip_eq_some.mpr ⟨he1, he2⟩

/-- C4: in a non-empty dataset of `n` samples, an iteration for the final index `n - 1`
that finds `vehicle_speed_adjusted` set after `spinOnce` reads `encoder1[n]`, one past the
end of the vector, and the run stops there; no fallback pacing is applied. -/
theorem speed_branch_reads_past_end (m : CMath K) (env : Env K) (fuel : Nat) (d : FileData)
    (st : MainState K) (hn : 0 < d.encoder1.length)
    (hset : (spinOnce st (env.speed_msgs (d.encoder1.length - 1))).vehicle_speed_adjusted
      = true) :
    d.encoder1[d.encoder1.length - 1 + 1]? = none ∧
    loop_body m env fuel d (d.encoder1.length - 1) st = .error Halt.index_past_end := by
  have hnone : d.encoder1[d.encoder1.length - 1 + 1]? = none :=
    List.getElem?_eq_none (by omega)
  refine ⟨hnone, ?_⟩
  simp only [loop_body, pacing, hset, Bool.not_true, Bool.false_eq_true, if_false,
    time_to_next_encoder_tick, index, hnone]
  rfl

/-- C5, as amended: with a negative `vehicle_speed` the wait of the speed branch is not
rejected but computed from the division: for an index `i` whose next tick value
`encoder1[i+1]` is not negative, `time_to_next_encoder_tick` is
`(encoder1[i+1] * 0.38 * π / 100) / vehicle_speed` rounded towards zero, whenever that fits
an `int`, and it is at most 0. -/
theorem negative_speed_wait (m : CMath K) (d : FileData) (i : Nat) (e : Int) (v : K)
    (hpi : 0 < m.M_PI) (hv : v < 0) (he : d.encoder1[i + 1]? = some e) (hnn : 0 ≤ e)
    (hfit : -2147483648 ≤ ⌈((e : K) * 0.38 * m.M_PI / 100) / v⌉) :
    time_to_next_encoder_tick m d i v = .ok ⌈((e : K) * 0.38 * m.M_PI / 100) / v⌉ ∧
    ⌈((e : K) * 0.38 * m.M_PI / 100) / v⌉ ≤ 0 := by
  have he' : (0 : K) ≤ (e : K) := by exact_mod_cast hnn
  have hnum : (0 : K) ≤ (e : K) * 0.38 * m.M_PI / 100 := by
    have h38 : (0 : K) ≤ 0.38 := by norm_num
    positivity
  have hx : ((e : K) * 0.38 * m.M_PI / 100) / v ≤ 0 :=
    div_nonpos_of_nonneg_of_nonpos hnum hv.le
  have hceil : ⌈((e : K) * 0.38 * m.M_PI / 100) / v⌉ ≤ 0 := by
    rw [Int.ceil_le]; exact_mod_cast hx
  refine ⟨?_, hceil⟩
  have htrunc : (if 0 ≤ ((e : K) * 0.38 * m.M_PI / 100) / v
        then ⌊((e : K) * 0.38 * m.M_PI / 100) / v⌋
        else ⌈((e : K) * 0.38 * m.M_PI / 100) / v⌉)
      = ⌈((e : K) * 0.38 * m.M_PI / 100) / v⌉ := by
    split_ifs with h0
    · have hzero : ((e : K) * 0.38 * m.M_PI / 100) / v = 0 := le_antisymm hx h0
      rw [hzero, Int.floor_zero, Int.ceil_zero]
    · rfl
  simp only [time_to_next_encoder_tick, index, he, bind, Except.bind, to_int, htrunc]
  rw [if_neg hv.ne, if_pos ⟨hfit, by omega⟩]

/-- C9: `vehicle_speed_adjusted` is false when `main` enters the loop; the callback sets it;
after `spinOnce` it is set exactly when it was set before or a message was dispatched; a
completed loop body leaves it as `spinOnce` left it and takes the speed branch exactly when
it is set; hence in every run an iteration that takes the speed branch is followed only by
iterations that take the speed branch. -/
theorem mode_latch (m : CMath K) (env : Env K) (fuel : Nat) (d : FileData) (p : Int)
    (st : MainState K) (v : K) (msgs : List K) :
    (main_init m p).vehicle_speed_adjusted = false ∧
    (vehicle_speed_callback st v).vehicle_speed_adjusted = true ∧
    (spinOnce st msgs).vehicle_speed_adjusted
      = (st.vehicle_speed_adjusted || !msgs.isEmpty) ∧
    (∀ (i : Nat) (st' : MainState K) (it : Iteration K),
      loop_body m env fuel d i st = .ok (st', it) →
      it.speed_branch = (spinOnce st (env.speed_msgs i)).vehicle_speed_adjusted ∧
      st'.vehicle_speed_adjusted = (spinOnce st (env.speed_msgs i)).vehicle_speed_adjusted) ∧
    List.Pairwise (fun a b : Iteration K => a.speed_branch = true → b.speed_branch = true)
      (main m env fuel d).1 := by
  refine ⟨rfl, rfl, spinOnce_flag st msgs, ?_, ?_⟩
  · intro i st' it h
    obtain ⟨h1, h2, -⟩ := loop_body_ok m env fuel d i st st' it h
    exact ⟨h1, h2⟩
  · unfold main
    cases now_int (K := K) env.now_start with
    | error e => exact List.Pairwise.nil
    | ok q => exact for_loop_pairwise m env fuel d d.encoder1.length 0 (main_init m q)

/-- C10, as amended: the lengths of `time`, `encoder1` and `encoder2` are not compared and
no dataset error exists.  The loop runs over the length of `encoder1`: entries of `time`
and `encoder2` beyond it are ignored, the run being that of the dataset cut to that length,
and a run that reaches the end of the loop had `encoder2` at least as long as `encoder1`
(`encoder2` is read with the checked `at`; `time` is read with the unchecked `operator[]`,
and nothing is said of a `time` that is too short). -/
theorem length_mismatch_not_rejected (m : CMath K) (env : Env K) (fuel : Nat)
    (d : FileData) :
    main m env fuel
        { d with time := d.time.take d.encoder1.length,
                 encoder2 := d.encoder2.take d.encoder1.length }
      = main m env fuel d ∧
    ((main m env fuel d).2 = Status.finished → d.encoder1.length ≤ d.encoder2.length) :=
  ⟨main_cut m env fuel d, main_finished_lengths m env fuel d⟩

end ReplayClaims

/-- Counterexample to C3: for the tick sequences `[1, 3]` and `[2, 5]` the loop passes
`(3, 5)` at the second sample, where the differences are `(2, 3)`. -/
theorem replay_passes_raw_ticks :
    (main (CMath.mk Real.pi Real.cos Real.sin)
        (Env.mk (fun _ => []) 0 (fun _ => 0) (fun _ => 0)) 1
        ⟨[], [0, 0], [1, 3], [2, 5]⟩).1.map
          (fun it => (it.delta_r_encoder, it.delta_l_encoder))
      = [(1, 2), (3, 5)] ∧
    (main (CMath.mk Real.pi Real.cos Real.sin)
        (Env.mk (fun _ => []) 0 (fun _ => 0) (fun _ => 0)) 1
        ⟨[], [0, 0], [1, 3], [2, 5]⟩).1.map
          (fun it => (it.delta_r_encoder, it.delta_l_encoder))
      ≠ (spec_deltas 0 [1, 3]).zip (spec_deltas 0 [2, 5]) := by
  have hrun : (main (CMath.mk Real.pi Real.cos Real.sin)
        (Env.mk (fun _ => []) 0 (fun _ => 0) (fun _ => 0)) 1
        ⟨[], [0, 0], [1, 3], [2, 5]⟩).1.map
          (fun it => (it.delta_r_encoder, it.delta_l_encoder))
      = [(1, 2), (3, 5)] := by
    simp [main, now_int, to_int, for_loop, loop_body, spinOnce, pacing, main_init, index,
      wait_loop, add_int, vector_at, bind, Except.bind, pure, Except.pure]
  refine ⟨hrun, ?_⟩
  rw [hrun]
  decide

/-- Witness of C4: one sample and a speed message before the first iteration; the run
stops in iteration 0 on the read of `encoder1[1]` and publishes nothing. -/
theorem speed_branch_reads_past_end_witness :
    0 < ([5] : List Int).length ∧
    main (CMath.mk Real.pi Real.cos Real.sin)
        (Env.mk (fun _ => [1]) 0 (fun _ => 0) (fun _ => 0)) 1 ⟨[], [0], [5], [5]⟩
      = ([], Status.halted 0 Halt.index_past_end) := by
  refine ⟨by decide, ?_⟩
  have hb := (speed_branch_reads_past_end (CMath.mk Real.pi Real.cos Real.sin)
    (Env.mk (fun _ => [1]) 0 (fun _ => 0) (fun _ => 0)) 1 ⟨[], [0], [5], [5]⟩
    (main_init (CMath.mk Real.pi Real.cos Real.sin) 0) (by decide) rfl).2
  unfold main
  rw [show (Env.mk (fun _ => [(1 : ℝ)]) 0 (fun _ => 0) (fun _ => 0)).now_start = 0 from rfl,
    now_int_zero]
  exact for_loop_error _ _ _ _ 0 0 _ _ hb

/-- Counterexample to C5: with the speed set to `-1` and 100 ticks at the next sample, the
pacing of sample 0 computes the wait `-1` and completes with `previous_time = 5 - 1`. -/
theorem negative_speed_not_rejected :
    time_to_next_encoder_tick (CMath.mk Real.pi Real.cos Real.sin)
      ⟨[], [5, 9], [0, 100], [0, 0]⟩ 0 (-1) = Except.ok (-1) ∧
    pacing (CMath.mk Real.pi Real.cos Real.sin)
      (Env.mk (fun _ => [-1]) 0 (fun _ => 0) (fun _ => 0)) 1 ⟨[], [5, 9], [0, 100], [0, 0]⟩ 0
      (spinOnce (main_init (CMath.mk Real.pi Real.cos Real.sin) 0) [-1])
      = Except.ok (true, 4) := by
  have h := wait_at_minus_one
  refine ⟨h, ?_⟩
  simp only [pacing, spinOnce, List.foldl, vehicle_speed_callback, main_init, Bool.not_true,
    Bool.false_eq_true, if_false, h]
  simp [index, add_int, wait_loop, now_int, to_int, bind, Except.bind, pure, Except.pure]

/-- Witness of C5: the speed `-1` and 100 ticks at the next sample. -/
theorem negative_speed_wait_witness :
    (-1 : ℝ) < 0 ∧
    time_to_next_encoder_tick (CMath.mk Real.pi Real.cos Real.sin)
      ⟨[], [5, 9], [0, 100], [0, 0]⟩ 0 (-1)
      = Except.ok ⌈((100 : ℤ) : ℝ) * 0.38 * Real.pi / 100 / (-1)⌉ := by
  refine ⟨by norm_num, ?_⟩
  have hfit : (-2147483648 : ℤ) ≤ ⌈((100 : ℤ) : ℝ) * 0.38 * Real.pi / 100 / (-1)⌉ := by
    have h4 := Real.pi_le_four
    have hlt : (-2147483649 : ℤ) < ⌈((100 : ℤ) : ℝ) * 0.38 * Real.pi / 100 / (-1)⌉ := by
      rw [Int.lt_ceil]
      push_cast
      linarith
    omega
  exact (negative_speed_wait (CMath.mk Real.pi Real.cos Real.sin)
    ⟨[], [5, 9], [0, 100], [0, 0]⟩ 0 100 (-1) Real.pi_pos (by norm_num) rfl (by norm_num)
    hfit).1

/-- Counterexample to C10: reading the tokens of a file with two timestamps, one value for
encoder 1 and two for encoder 2 gives a dataset of unequal lengths, and its replay
publishes one sample and reaches the end of the loop. -/
theorem length_mismatch_replayed :
    read_JSON (fun s => if s = "0" then some 0 else if s = "1" then some 1 else none)
        (some ["[[", "a", "], [", "0", ", ", "0", "], [", "1", "], [", "1", ", ", "1", "]]"])
      = Except.ok ⟨["[[", "a"], [0, 0], [1], [1, 1]⟩ ∧
    ([0, 0] : List Int).length ≠ ([1] : List Int).length ∧
    (main (CMath.mk Real.pi Real.cos Real.sin)
        (Env.mk (fun _ => []) 0 (fun _ => 0) (fun _ => 0)) 1
        ⟨["[[", "a"], [0, 0], [1], [1, 1]⟩).2 = Status.finished ∧
    (main (CMath.mk Real.pi Real.cos Real.sin)
        (Env.mk (fun _ => []) 0 (fun _ => 0) (fun _ => 0)) 1
        ⟨["[[", "a"], [0, 0], [1], [1, 1]⟩).1.length = 1 := by
  refine ⟨by simp [read_JSON, read_JSON_loop], by decide, ?_, ?_⟩
  · simp [main, now_int, to_int, for_loop, loop_body, spinOnce, pacing, main_init, index,
      wait_loop, add_int, vector_at, bind, Except.bind, pure, Except.pure]
  · simp [main, now_int, to_int, for_loop, loop_body, spinOnce, pacing, main_init, index,
      wait_loop, add_int, vector_at, bind, Except.bind, pure, Except.pure]

/-! ## Further lemmas: pacing loops and trajectories -/

/-- A pacing loop entered with `previous_time` above its target has not exited after any
number of evaluations of its condition. -/
theorem wait_loop_stuck (p t : Int) (h : t < p) :
    ∀ fuel : Nat, wait_loop p t fuel = Except.error Halt.still_waiting := by
  intro fuel
  induction fuel with
  | zero => rfl
  | succ n ih => rw [wait_loop, if_pos h, ih]

/-- A pacing loop entered with `previous_time` not above its target exits at once. -/
theorem wait_loop_exit (p t : Int) (h : p ≤ t) (fuel : Nat) :
    wait_loop p t (fuel + 1) = Except.ok () := by
  rw [wait_loop, if_neg (not_lt.mpr h)]

section TrajectoryLemmas

variable {K : Type} [LinearOrderedField K]

/-- The first states of a trajectory are the trajectory of the first calls. -/
theorem trajectory_take (m : CMath K) (steps : List (Int × Int)) :
    ∀ (s : DiffDrive K) (n : Nat),
      (DiffDrive.trajectory m s steps).take n = DiffDrive.trajectory m s (steps.take n) := by
  induction steps with
  | nil => intro s n; simp [DiffDrive.trajectory]
  | cons p rest ih =>
    intro s n
    obtain ⟨dr, dl⟩ := p
    cases n with
    | zero => simp [DiffDrive.trajectory]
    | succ n => simp only [DiffDrive.trajectory, List.take_succ_cons, ih]

end TrajectoryLemmas

section ReplayLemmas2

variable {K : Type} [LinearOrderedField K] [FloorRing K]

/-- The message of a completed loop body carries the pose and velocity of the integrator
after the call, and `z = 0`. -/
theorem loop_body_odom (m : CMath K) (env : Env K) (fuel : Nat) (d : FileData) (i : Nat)
    (st st' : MainState K) (it : Iteration K)
    (h : loop_body m env fuel d i st = .ok (st', it)) :
    it.odom.pose_velocity = st'.ddr_position.pose_velocity ∧ it.odom.position_z = 0 := by
  unfold loop_body at h
  simp only [bind_ok_iff, pure_ok_iff] at h
  obtain ⟨p, hp, a1, h1, a2, h2, hres⟩ := h
  obtain ⟨rfl, rfl⟩ := Prod.mk.inj hres
  exact ⟨rfl, rfl⟩

/-- The poses and velocities published by a loop are those of the trajectory of the
integrator over the argument pairs passed. -/
theorem for_loop_trajectory (m : CMath K) (env : Env K) (fuel : Nat) (d : FileData) :
    ∀ (k i : Nat) (st : MainState K),
      (for_loop m env fuel d k i st).1.map (fun it => it.odom.pose_velocity)
        = (DiffDrive.trajectory m st.ddr_position
            ((for_loop m env fuel d k i st).1.map
              (fun it => (it.delta_r_encoder, it.delta_l_encoder)))).map
          DiffDrive.pose_velocity := by
  intro k
  induction k with
  | zero => intro i st; rfl
  | succ k ih =>
    intro i st
    cases hb : loop_body m env fuel d i st with
    | error e => rw [for_loop_error m env fuel d k i st e hb]; rfl
    | ok r =>
      obtain ⟨st', it0⟩ := r
      rw [for_loop_ok m env fuel d k i st st' it0 hb]
      obtain ⟨-, -, -, -, -, hddr, -⟩ := loop_body_ok m env fuel d i st st' it0 hb
      obtain ⟨hodom, -⟩ := loop_body_odom m env fuel d i st st' it0 hb
      simp only [List.map_cons, DiffDrive.trajectory]
      rw [ih (i + 1) st', hodom, hddr]

/-- The argument pairs passed in a run are the first pairs of recorded values. -/
theorem main_args (m : CMath K) (env : Env K) (fuel : Nat) (d : FileData) :
    (main m env fuel d).1.map (fun it => (it.delta_r_encoder, it.delta_l_encoder))
      = (d.encoder1.zip d.encoder2).take (main m env fuel d).1.length := by
  apply List.ext_getElem?
  intro j
  rw [List.getElem?_map]
  cases hj : (main m env fuel d).1[j]? with
  | none =>
    rw [List.getElem?_take_eq_none (List.getElem?_eq_none_iff.mp hj)]
    rfl
  | some it =>
    have hlt : j < (main m env fuel d).1.length := (List.getElem?_eq_some_iff.mp hj).1
    rw [List.getElem?_take_of_lt hlt]
    unfold main at hj
    cases hn : now_int (K := K) env.now_start with
    | error e => rw [hn] at hj; simp at hj
    | ok p =>
      rw [hn] at hj
      simp only [] at hj
      obtain ⟨st0, st1, hb⟩ := for_loop_get m env fuel d _ 0 _ j it hj
      rw [Nat.zero_add] at hb
      obtain ⟨-, -, he1, he2, -⟩ := loop_body_ok m env fuel d j st0 st1 it hb
      symm
      exact List.getElem?_zip_eq_some.mpr ⟨he1, he2⟩

/-- The poses and velocities published in a run are those of the trajectory of the
integrator of `main` over the first pairs of recorded values. -/
theorem main_trajectory (m : CMath K) (env : Env K) (fuel : Nat) (d : FileData) :
    (main m env fuel d).1.map (fun it => it.odom.pose_velocity)
      = (DiffDrive.trajectory m (ddr_position m)
          ((d.encoder1.zip d.encoder2).take (main m env fuel d).1.length)).map
        DiffDrive.pose_velocity := by
  rw [← main_args m env fuel d]
  unfold main
  cases now_int (K := K) env.now_start with
  | error e => rfl
  | ok p => exact for_loop_trajectory m env fuel d d.encoder1.length 0 (main_init m p)

end ReplayLemmas2

section IntegratorLemmas2

variable {K : Type} [LinearOrderedField K]

/-- The rotation velocities along a trajectory are
`wh_radius / axle_length * angle_per_tick * (delta_l_encoder - delta_r_encoder)`. -/
theorem trajectory_rotation (m : CMath K) (steps : List (Int × Int)) :
    ∀ s : DiffDrive K,
      (DiffDrive.trajectory m s steps).map (fun s' => s'.delta_z_rot)
        = steps.map (fun p => s.wh_radius / s.axle_length * s.angle_per_tick
            * ((p.2 : K) - (p.1 : K))) := by
  induction steps with
  | nil => intro s; rfl
  | cons p rest ih =>
    intro s
    obtain ⟨dr, dl⟩ := p
    simp only [DiffDrive.trajectory, List.map_cons, ih]
    congr 1
    simp only [DiffDrive.get_new_transform]
    ring

end IntegratorLemmas2

/-- A clock that reads one nanosecond converts to the `int` 1000000. -/
theorem now_int_one : now_int (K := ℝ) 1 = Except.ok 1000000 := by
  have hx : ((1 : ℕ) : ℝ) / 1e-6 = ((1000000 : ℤ) : ℝ) := by norm_num
  simp only [now_int, to_int, hx, Int.floor_intCast, Int.ceil_intCast]
  norm_num

/-! ## The integrator: the concrete step -/

section IntegratorClaims2

variable {K : Type} [LinearOrderedField K]

/-- C13: with a positive `M_PI`, `cos 0 = 1` and `sin 0 = 0`, for the integrator constructed
with wheel radius `0.19π`, 100 ticks per revolution and axle length 1.466,
`get_new_transform(50, 50)` from the initial pose gives a forward displacement of
`0.19π * π` and leaves the pose at `x = 0.19π * π`, `y = 0`, heading 0. -/
theorem step_fifty_fifty (m : CMath K) (hpi : 0 < m.M_PI) (hcos : m.cos 0 = 1)
    (hsin : m.sin 0 = 0) :
    (DiffDrive.new m (0.19 * m.M_PI) 100 1.466).local_delta_trans 50 50
      = 0.19 * m.M_PI * m.M_PI ∧
    ((DiffDrive.new m (0.19 * m.M_PI) 100 1.466).get_new_transform m 50 50).world_x_trans
      = 0.19 * m.M_PI * m.M_PI ∧
    ((DiffDrive.new m (0.19 * m.M_PI) 100 1.466).get_new_transform m 50 50).world_y_trans = 0 ∧
    ((DiffDrive.new m (0.19 * m.M_PI) 100 1.466).get_new_transform m 50 50).world_z_rot = 0 := by
  have hloc : (DiffDrive.new m (0.19 * m.M_PI) 100 1.466).local_delta_trans 50 50
      = 0.19 * m.M_PI * m.M_PI := by
    simp only [DiffDrive.local_delta_trans, DiffDrive.new]
    push_cast
    ring
  refine ⟨hloc, ?_, ?_, ?_⟩
  · simp only [DiffDrive.get_new_transform, hloc]
    simp only [DiffDrive.new, hcos, zero_add, mul_one]
  · simp only [DiffDrive.get_new_transform, hloc]
    simp only [DiffDrive.new, hsin, zero_add, mul_zero]
  · have hz : ((DiffDrive.new m (0.19 * m.M_PI) 100 1.466).get_new_transform m 50 50).world_z_rot
        = DiffDrive.angle_add m 0 0 := by
      simp only [DiffDrive.get_new_transform, DiffDrive.new, sub_self, mul_zero]
    rw [hz]
    exact angle_add_zero_of_range m 0 (le_refl 0) (mul_pos two_pos hpi)

end IntegratorClaims2

/-! ## The replay loop: waiting, determinism, timestamps, wiring -/

section ReplayClaims2

variable {K : Type} [LinearOrderedField K] [FloorRing K]

/-- C11: a run does not always perform its steps and stop.  When the dataset is not empty, no
speed message comes before the first iteration and the conversion of the clock reading of
source line 184 is above `time[0]`, the pacing loop of the first sample has not exited
after any number of evaluations of its condition: the run is still waiting in iteration 0,
with no integrator step taken, whatever the later clock readings. -/
theorem pacing_loop_never_exits (m : CMath K) (env : Env K) (fuel : Nat) (d : FileData)
    (p t : Int) (hn : 0 < d.encoder1.length)
    (hstart : now_int (K := K) env.now_start = .ok p) (hmsgs : env.speed_msgs 0 = [])
    (ht : d.time[0]? = some t) (hgt : t < p) :
    main m env fuel d = ([], Status.halted 0 Halt.still_waiting) := by
  unfold main
  rw [hstart]
  simp only []
  obtain ⟨k, hk⟩ := Nat.exists_eq_succ_of_ne_zero (Nat.pos_iff_ne_zero.mp hn)
  rw [hk]
  apply for_loop_error
  simp only [loop_body, hmsgs, spinOnce, List.foldl, pacing, main_init, Bool.not_false,
    if_true, index, ht, bind, Except.bind, wait_loop_stuck p t hgt fuel]

/-- C14: the poses and velocities published in a run are those of the trajectory of the
integrator of `main` over the first pairs of recorded tick values, as many as the run
processed; hence two runs over the same tick sequences, whatever their clock readings,
speed messages, timestamps and waiting bounds, publish the same poses and velocities for
the samples both processed. -/
theorem replay_deterministic (m : CMath K) (env1 env2 : Env K) (fuel1 fuel2 : Nat)
    (f1 f2 : List String) (t1 t2 e1 e2 : List Int) :
    (main m env1 fuel1 ⟨f1, t1, e1, e2⟩).1.map (fun it => it.odom.pose_velocity)
      = (DiffDrive.trajectory m (ddr_position m)
          ((e1.zip e2).take (main m env1 fuel1 ⟨f1, t1, e1, e2⟩).1.length)).map
        DiffDrive.pose_velocity ∧
    ((main m env1 fuel1 ⟨f1, t1, e1, e2⟩).1.map (fun it => it.odom.pose_velocity)).take
        (min (main m env1 fuel1 ⟨f1, t1, e1, e2⟩).1.length
          (main m env2 fuel2 ⟨f2, t2, e1, e2⟩).1.length)
      = ((main m env2 fuel2 ⟨f2, t2, e1, e2⟩).1.map (fun it => it.odom.pose_velocity)).take
        (min (main m env1 fuel1 ⟨f1, t1, e1, e2⟩).1.length
          (main m env2 fuel2 ⟨f2, t2, e1, e2⟩).1.length) := by
  have h1 := main_trajectory m env1 fuel1 ⟨f1, t1, e1, e2⟩
  have h2 := main_trajectory m env2 fuel2 ⟨f2, t2, e1, e2⟩
  refine ⟨h1, ?_⟩
  rw [h1, h2]
  simp only [← List.map_take, trajectory_take, List.take_take]
  rw [Nat.min_eq_left (Nat.min_le_left _ _), Nat.min_eq_left (Nat.min_le_right _ _)]

/-- C15, as amended: for every sample processed, the timestamp of the message published is
the reading of `ros::Time::now()` taken after the pacing block of that iteration (source
line 202), not the recorded timestamp `time[i]`. -/
theorem stamp_is_clock_reading (m : CMath K) (env : Env K) (fuel : Nat) (d : FileData) :
    (main m env fuel d).1.map (fun it => it.odom.stamp)
      = (List.range (main m env fuel d).1.length).map env.now_stamp := by
  apply List.ext_getElem?
  intro j
  rw [List.getElem?_map, List.getElem?_map]
  cases hj : (main m env fuel d).1[j]? with
  | none =>
    rw [List.getElem?_eq_none (by
      rw [List.length_range]; exact List.getElem?_eq_none_iff.mp hj)]
    rfl
  | some it =>
    have hlt : j < (main m env fuel d).1.length := (List.getElem?_eq_some_iff.mp hj).1
    rw [List.getElem?_range hlt]
    unfold main at hj
    cases hn : now_int (K := K) env.now_start with
    | error e => rw [hn] at hj; simp at hj
    | ok p =>
      rw [hn] at hj
      simp only [] at hj
      obtain ⟨st0, st1, hb⟩ := for_loop_get m env fuel d _ 0 _ j it hj
      rw [Nat.zero_add] at hb
      obtain ⟨-, -, -, -, -, -, hstamp⟩ := loop_body_ok m env fuel d j st0 st1 it hb
      simp only [Option.map_some', hstamp]

/-- C17, as amended: for every sample processed, the `encoder1` value is the one the
integrator treats as the right delta and the `encoder2` value the one it treats as the left
delta, so that the rotation published is
`wh_radius / axle_length * angle_per_tick * (encoder2[i] - encoder1[i])`. -/
theorem encoder1_is_right_delta (m : CMath K) (env : Env K) (fuel : Nat) (d : FileData) :
    (main m env fuel d).1.map (fun it => it.odom.twist_angular_z)
      = ((d.encoder1.zip d.encoder2).take (main m env fuel d).1.length).map
        (fun p => (ddr_position m).wh_radius / (ddr_position m).axle_length
          * (ddr_position m).angle_per_tick * ((p.2 : K) - (p.1 : K))) := by
  have h := congrArg (List.map (fun t : K × K × K × K × K × K => t.2.2.2.2.2))
    (main_trajectory m env fuel d)
  simp only [List.map_map] at h
  rw [← trajectory_rotation m _ (ddr_position m)]
  exact h

end ReplayClaims2

/-- Witness of C11: one sample with `time[0] = 0` and a clock that reads one nanosecond at
source line 184; for no waiting bound does the run reach the end of the loop. -/
theorem pacing_loop_never_exits_witness :
    ¬ ∃ fuel : Nat,
      (main (CMath.mk Real.pi Real.cos Real.sin)
        (Env.mk (fun _ => []) 1 (fun _ => 0) (fun _ => 0)) fuel ⟨[], [0], [1], [1]⟩).2
        = Status.finished := by
  rintro ⟨fuel, h⟩
  rw [pacing_loop_never_exits (CMath.mk Real.pi Real.cos Real.sin)
    (Env.mk (fun _ => []) 1 (fun _ => 0) (fun _ => 0)) fuel ⟨[], [0], [1], [1]⟩ 1000000 0
    (by decide) now_int_one rfl rfl (by decide)] at h
  cases h

/-- C12: with every clock reading 0 and `time[0] = 5`, the run takes the timestamp branch,
publishes the step of sample 0 with the clock at 0 and ends, although the clock is earlier
than the reading before the loop plus `time[0]`. -/
theorem step_taken_before_target :
    (main (CMath.mk Real.pi Real.cos Real.sin)
        (Env.mk (fun _ => []) 0 (fun _ => 0) (fun _ => 0)) 1 ⟨[], [5], [1], [1]⟩).1.map
          (fun it => (it.speed_branch, it.odom.stamp)) = [(false, 0)] ∧
    (main (CMath.mk Real.pi Real.cos Real.sin)
        (Env.mk (fun _ => []) 0 (fun _ => 0) (fun _ => 0)) 1 ⟨[], [5], [1], [1]⟩).2
      = Status.finished ∧
    ((0 : ℕ) : ℤ) < ((0 : ℕ) : ℤ) + 5 := by
  refine ⟨?_, ?_, by norm_num⟩
  · simp [main, now_int, to_int, for_loop, loop_body, spinOnce, pacing, main_init, index,
      wait_loop, add_int, vector_at, bind, Except.bind, pure, Except.pure]
  · simp [main, now_int, to_int, for_loop, loop_body, spinOnce, pacing, main_init, index,
      wait_loop, add_int, vector_at, bind, Except.bind, pure, Except.pure]

/-- Witness of C13: the real `π`, cosine and sine. -/
theorem step_fifty_fifty_witness :
    (0 : ℝ) < Real.pi ∧ Real.cos 0 = 1 ∧ Real.sin 0 = 0 ∧
    ((DiffDrive.new (CMath.mk Real.pi Real.cos Real.sin) (0.19 * Real.pi) 100
        1.466).get_new_transform (CMath.mk Real.pi Real.cos Real.sin) 50 50).world_x_trans
      = 0.19 * Real.pi * Real.pi :=
  ⟨Real.pi_pos, Real.cos_zero, Real.sin_zero,
    (step_fifty_fifty (CMath.mk Real.pi Real.cos Real.sin) Real.pi_pos Real.cos_zero
      Real.sin_zero).2.1⟩

/-- Counterexample to C15: with `time[0] = 5` and the clock reading 7 at source line 202, the
message of sample 0 is stamped 7. -/
theorem stamp_differs_from_recorded_time :
    (main (CMath.mk Real.pi Real.cos Real.sin)
        (Env.mk (fun _ => []) 0 (fun _ => 0) (fun _ => 7)) 1 ⟨[], [5], [1], [1]⟩).1.map
          (fun it => (it.odom.stamp : ℤ)) = [7] ∧
    (main (CMath.mk Real.pi Real.cos Real.sin)
        (Env.mk (fun _ => []) 0 (fun _ => 0) (fun _ => 7)) 1 ⟨[], [5], [1], [1]⟩).1.map
          (fun it => (it.odom.stamp : ℤ)) ≠ [5] := by
  have hrun : (main (CMath.mk Real.pi Real.cos Real.sin)
        (Env.mk (fun _ => []) 0 (fun _ => 0) (fun _ => 7)) 1 ⟨[], [5], [1], [1]⟩).1.map
          (fun it => (it.odom.stamp : ℤ)) = [7] := by
    simp [main, now_int, to_int, for_loop, loop_body, spinOnce, pacing, main_init, index,
      wait_loop, add_int, vector_at, bind, Except.bind, pure, Except.pure]
  refine ⟨hrun, ?_⟩
  rw [hrun]
  decide

/-- Counterexample to C17: one tick in `encoder1` and none in `encoder2` gives the rotation
`wh_radius / axle_length * angle_per_tick * (0 - 1)`, the opposite of the rotation for
`encoder1` as the left wheel. -/
theorem encoder1_tick_turns_negative :
    (main (CMath.mk Real.pi Real.cos Real.sin)
        (Env.mk (fun _ => []) 0 (fun _ => 0) (fun _ => 0)) 1 ⟨[], [0], [1], [0]⟩).1.map
          (fun it => it.odom.twist_angular_z)
      = [0.38 * Real.pi / 1.466 * (2 * Real.pi / 100) * (((0 : ℤ) : ℝ) - ((1 : ℤ) : ℝ))] ∧
    (main (CMath.mk Real.pi Real.cos Real.sin)
        (Env.mk (fun _ => []) 0 (fun _ => 0) (fun _ => 0)) 1 ⟨[], [0], [1], [0]⟩).1.map
          (fun it => it.odom.twist_angular_z)
      ≠ [0.38 * Real.pi / 1.466 * (2 * Real.pi / 100) * (((1 : ℤ) : ℝ) - ((0 : ℤ) : ℝ))] := by
  have hpi := Real.pi_pos
  have hrun : (main (CMath.mk Real.pi Real.cos Real.sin)
        (Env.mk (fun _ => []) 0 (fun _ => 0) (fun _ => 0)) 1 ⟨[], [0], [1], [0]⟩).1.map
          (fun it => it.odom.twist_angular_z)
      = [0.38 * Real.pi / 1.466 * (2 * Real.pi / 100) * (((0 : ℤ) : ℝ) - ((1 : ℤ) : ℝ))] := by
    simp [main, now_int, to_int, for_loop, loop_body, spinOnce, pacing, main_init, index,
      wait_loop, add_int, vector_at, bind, Except.bind, pure, Except.pure,
      DiffDrive.get_new_transform, ddr_position, DiffDrive.new]
  refine ⟨hrun, ?_⟩
  rw [hrun]
  intro h
  have h' := List.head_eq_of_cons_eq h
  have hpos : 0 < 0.38 * Real.pi / 1.466 * (2 * Real.pi / 100) := by positivity
  push_cast at h'
  linarith

/-- C18: the distance per tick of the speed branch, `0.38π / 100`, is not
`2π * wh_radius / 100` for the integrator of `main`, whose displacement for one tick on
both wheels is `2π` times as large; for 100 ticks and a speed of 1 the speed branch waits
`int(0.38π) = 1` while the integrator moves by `2π * 0.38π`. -/
theorem pacing_and_integrator_distance_differ :
    (0.38 * Real.pi / 100 : ℝ)
      ≠ 2 * Real.pi * (ddr_position (CMath.mk Real.pi Real.cos Real.sin)).wh_radius / 100 ∧
    (ddr_position (CMath.mk Real.pi Real.cos Real.sin)).local_delta_trans 1 1
      = 2 * Real.pi * (0.38 * Real.pi / 100) ∧
    time_to_next_encoder_tick (CMath.mk Real.pi Real.cos Real.sin)
      ⟨[], [5, 9], [0, 100], [0, 0]⟩ 0 1 = Except.ok 1 ∧
    (ddr_position (CMath.mk Real.pi Real.cos Real.sin)).local_delta_trans 100 100
      = 2 * Real.pi * (0.38 * Real.pi) := by
  have h3 := Real.pi_gt_three
  have h4 := Real.pi_le_four
  refine ⟨?_, ?_, ?_, ?_⟩
  · simp only [ddr_position, DiffDrive.new]
    intro h
    nlinarith
  · simp only [DiffDrive.local_delta_trans, ddr_position, DiffDrive.new]
    push_cast
    ring
  · have hx : ((100 : ℤ) : ℝ) * 0.38 * Real.pi / 100 / 1 = 0.38 * Real.pi := by
      push_cast; ring
    have hpos : (0 : ℝ) ≤ 0.38 * Real.pi := by positivity
    have hfloor : ⌊0.38 * Real.pi⌋ = 1 := by
      rw [Int.floor_eq_iff]
      constructor <;> push_cast <;> nlinarith
    simp only [time_to_next_encoder_tick, index, to_int, bind, Except.bind]
    simp only [List.getElem?_cons_succ, List.getElem?_cons_zero, Nat.zero_add]
    rw [if_neg (by norm_num), hx, if_pos hpos, hfloor]
    rfl
  · simp only [DiffDrive.local_delta_trans, ddr_position, DiffDrive.new]
    push_cast
    ring

/-- C19: the integrator of `main` has axle length 1.466 and `angle_per_tick = 2π / 100`, but
its wheel radius is the constant `WHEEL_DIAMETER = 0.38π`, so that its first step on the
deltas `(50, 50)` moves the pose to `x = 0.38π * π`, not to `0.19π * π`. -/
theorem main_radius_is_diameter_constant :
    (ddr_position (CMath.mk Real.pi Real.cos Real.sin)).wh_radius = 0.38 * Real.pi ∧
    (ddr_position (CMath.mk Real.pi Real.cos Real.sin)).axle_length = 1.466 ∧
    (ddr_position (CMath.mk Real.pi Real.cos Real.sin)).angle_per_tick = 2 * Real.pi / 100 ∧
    ((ddr_position (CMath.mk Real.pi Real.cos Real.sin)).get_new_transform
        (CMath.mk Real.pi Real.cos Real.sin) 50 50).world_x_trans = 0.38 * Real.pi * Real.pi ∧
    ((ddr_position (CMath.mk Real.pi Real.cos Real.sin)).get_new_transform
        (CMath.mk Real.pi Real.cos Real.sin) 50 50).world_x_trans ≠ 0.19 * Real.pi * Real.pi := by
  have hpi := Real.pi_pos
  have hx : ((ddr_position (CMath.mk Real.pi Real.cos Real.sin)).get_new_transform
        (CMath.mk Real.pi Real.cos Real.sin) 50 50).world_x_trans = 0.38 * Real.pi * Real.pi := by
    simp only [DiffDrive.get_new_transform, DiffDrive.local_delta_trans, ddr_position,
      DiffDrive.new, Real.cos_zero]
    push_cast
    ring
  refine ⟨rfl, rfl, ?_, hx, ?_⟩
  · simp only [ddr_position, DiffDrive.new]
    push_cast
    ring
  · rw [hx]
    intro h
    nlinarith

/-! ## Lemmas on the rounding `binary64` -/

section PowLemmas

variable {K : Type} [LinearOrderedField K]

/-- A power of two is `2^52` units in the last place of its binade. -/
theorem two_pow_split (e : Int) : (2 : K) ^ e = ((2 ^ 52 : Int) : K) * (2 : K) ^ (e - 52) := by
  have h : ((2 ^ 52 : Int) : K) = (2 : K) ^ (52 : Int) := by norm_num
  rw [h, ← zpow_add₀ (by norm_num : (2 : K) ≠ 0)]
  congr 1
  omega

/-- The next power of two is `2^53` units in the last place of the binade. -/
theorem two_pow_split_succ (e : Int) :
    (2 : K) ^ (e + 1) = ((2 ^ 53 : Int) : K) * (2 : K) ^ (e - 52) := by
  have h : ((2 ^ 53 : Int) : K) = (2 : K) ^ (53 : Int) := by norm_num
  rw [h, ← zpow_add₀ (by norm_num : (2 : K) ≠ 0)]
  congr 1
  omega

end PowLemmas

section RoundingLemmas

variable {K : Type} [LinearOrderedField K] [FloorRing K]

/-- A value less than one half away from an integer rounds to that integer. -/
theorem rne_eq_of_near (y : K) (n : Int) (h1 : (n : K) - 1 / 2 < y) (h2 : y < (n : K) + 1 / 2) :
    rne y = n := by
  unfold rne
  rcases le_or_lt (n : K) y with hle | hlt
  · have hfl : ⌊y⌋ = n := by
      rw [Int.floor_eq_iff]; constructor
      · exact hle
      · linarith
    rw [hfl, if_pos (by linarith)]
  · have hfl : ⌊y⌋ = n - 1 := by
      rw [Int.floor_eq_iff]; push_cast; constructor <;> linarith
    rw [hfl]
    push_cast
    rw [if_neg (by linarith), if_pos (by linarith)]
    ring

/-- The binade of a value between two consecutive powers of two. -/
theorem log_two_eq (x : K) (e : Int) (hlo : (2 : K) ^ e ≤ x) (hhi : x < (2 : K) ^ (e + 1)) :
    Int.log 2 x = e := by
  have hpos : 0 < x := lt_of_lt_of_le (zpow_pos (by norm_num) e) hlo
  apply le_antisymm
  · have := (Int.lt_zpow_iff_log_lt (b := 2) (by norm_num) hpos (x := e + 1)).mp
      (by simpa using hhi)
    omega
  · exact (Int.zpow_le_iff_le_log (b := 2) (by norm_num) hpos).mp (by simpa using hlo)

/-- Evaluation of the rounding of a positive value that is not half way between two
neighbours: `n` units in the last place of the binade `e`. -/
theorem round_pos_eq (x : K) (e n : Int) (hlo : (2 : K) ^ e ≤ x) (hhi : x < (2 : K) ^ (e + 1))
    (h1 : ((n : K) - 1 / 2) * (2 : K) ^ (e - 52) < x)
    (h2 : x < ((n : K) + 1 / 2) * (2 : K) ^ (e - 52)) :
    round_pos x = (n : K) * (2 : K) ^ (e - 52) := by
  have hu : (0 : K) < (2 : K) ^ (e - 52) := zpow_pos (by norm_num) _
  unfold round_pos
  rw [log_two_eq x e hlo hhi, rne_eq_of_near _ n ((lt_div_iff₀ hu).mpr h1) ((div_lt_iff₀ hu).mpr h2)]

/-- Evaluation of `binary64` at a positive value that is not half way between two
neighbours. -/
theorem binary64_eq (x : K) (e n : Int) (hlo : (2 : K) ^ e ≤ x) (hhi : x < (2 : K) ^ (e + 1))
    (h1 : ((n : K) - 1 / 2) * (2 : K) ^ (e - 52) < x)
    (h2 : x < ((n : K) + 1 / 2) * (2 : K) ^ (e - 52)) :
    binary64 x = (n : K) * (2 : K) ^ (e - 52) := by
  have hpos : 0 < x := lt_of_lt_of_le (zpow_pos (by norm_num) e) hlo
  unfold binary64
  rw [if_neg hpos.ne', if_pos hpos, round_pos_eq x e n hlo hhi h1 h2]

/-- The rounding of the opposite is the opposite of the rounding. -/
theorem binary64_neg (x : K) : binary64 (-x) = -binary64 x := by
  unfold binary64
  rcases lt_trichotomy x 0 with h | h | h
  · rw [if_neg (by linarith : -x ≠ 0), if_pos (by linarith : 0 < -x), if_neg h.ne,
      if_neg (by linarith : ¬ 0 < x), neg_neg]
  · subst h; simp
  · rw [if_neg (by linarith : -x ≠ 0), if_neg (by linarith : ¬ 0 < -x), if_neg h.ne',
      if_pos h, neg_neg]

/-- An integer rounds to itself. -/
theorem rne_int (n : Int) : rne (n : K) = n :=
  rne_eq_of_near (n : K) n (by linarith) (by linarith)

/-- Rounding to an integer gives the floor or its successor. -/
theorem rne_bounds (y : K) : ⌊y⌋ ≤ rne y ∧ rne y ≤ ⌊y⌋ + 1 := by
  unfold rne
  split_ifs <;> constructor <;> omega

/-- Rounding to an integer is monotone. -/
theorem rne_mono (y1 y2 : K) (h : y1 ≤ y2) : rne y1 ≤ rne y2 := by
  have hf : ⌊y1⌋ ≤ ⌊y2⌋ := Int.floor_mono h
  rcases lt_or_eq_of_le hf with hlt | heq
  · have h1 := (rne_bounds y1).2
    have h2 := (rne_bounds y2).1
    omega
  · unfold rne
    rw [heq]
    split_ifs <;> first | omega | (exfalso; linarith)

/-- The rounding of a positive value stays in the closed binade of the value. -/
theorem round_pos_bounds (x : K) (hx : 0 < x) :
    (2 : K) ^ Int.log 2 x ≤ round_pos x ∧ round_pos x ≤ (2 : K) ^ (Int.log 2 x + 1) := by
  have hu : (0 : K) < (2 : K) ^ (Int.log 2 x - 52) := zpow_pos (by norm_num) _
  have hlo : (2 : K) ^ Int.log 2 x ≤ x := by
    simpa using Int.zpow_log_le_self (b := 2) (by norm_num) hx
  have hhi : x < (2 : K) ^ (Int.log 2 x + 1) := by
    simpa using Int.lt_zpow_succ_log_self (b := 2) (by norm_num) x
  unfold round_pos
  constructor
  · rw [two_pow_split (Int.log 2 x)]
    apply mul_le_mul_of_nonneg_right _ hu.le
    have h1 : ((2 ^ 52 : Int) : K) ≤ x / (2 : K) ^ (Int.log 2 x - 52) := by
      rw [le_div_iff₀ hu, ← two_pow_split]; exact hlo
    have h2 := rne_mono _ _ h1
    rw [rne_int] at h2
    exact_mod_cast h2
  · rw [two_pow_split_succ (Int.log 2 x)]
    apply mul_le_mul_of_nonneg_right _ hu.le
    have h1 : x / (2 : K) ^ (Int.log 2 x - 52) ≤ ((2 ^ 53 : Int) : K) := by
      rw [div_le_iff₀ hu, ← two_pow_split_succ]; exact hhi.le
    have h2 := rne_mono _ _ h1
    rw [rne_int] at h2
    exact_mod_cast h2

/-- The rounding of positive values is monotone. -/
theorem round_pos_mono (x y : K) (hx : 0 < x) (h : x ≤ y) : round_pos x ≤ round_pos y := by
  have hy : 0 < y := lt_of_lt_of_le hx h
  have hlog : Int.log 2 x ≤ Int.log 2 y := Int.log_mono_right hx h
  rcases lt_or_eq_of_le hlog with hlt | heq
  · calc round_pos x ≤ (2 : K) ^ (Int.log 2 x + 1) := (round_pos_bounds x hx).2
      _ ≤ (2 : K) ^ Int.log 2 y := zpow_le_zpow_right₀ (by norm_num) (by omega)
      _ ≤ round_pos y := (round_pos_bounds y hy).1
  · unfold round_pos
    rw [heq]
    have hu : (0 : K) < (2 : K) ^ (Int.log 2 y - 52) := zpow_pos (by norm_num) _
    apply mul_le_mul_of_nonneg_right _ hu.le
    have h2 := rne_mono _ _ (div_le_div_of_nonneg_right h hu.le)
    exact_mod_cast h2

/-- The rounding of a positive value is positive. -/
theorem round_pos_pos (x : K) (hx : 0 < x) : 0 < round_pos x :=
  lt_of_lt_of_le (zpow_pos (by norm_num) _) (round_pos_bounds x hx).1

/-- The rounding `binary64` is monotone. -/
theorem binary64_mono : Monotone (binary64 : K → K) := by
  intro x y h
  unfold binary64
  rcases lt_trichotomy x 0 with hx | hx | hx
  · rw [if_neg hx.ne, if_neg (by linarith : ¬ 0 < x)]
    rcases lt_trichotomy y 0 with hy | hy | hy
    · rw [if_neg hy.ne, if_neg (by linarith : ¬ 0 < y)]
      have := round_pos_mono (-y) (-x) (by linarith) (by linarith)
      linarith
    · rw [if_pos hy]
      have := round_pos_pos (-x) (by linarith)
      linarith
    · rw [if_neg hy.ne', if_pos hy]
      have h1 := round_pos_pos (-x) (by linarith)
      have h2 := round_pos_pos y hy
      linarith
  · subst hx
    rw [if_pos rfl]
    rcases lt_or_eq_of_le h with hy | hy
    · rw [if_neg hy.ne', if_pos hy]; exact (round_pos_pos y hy).le
    · rw [if_pos hy.symm]
  · have hy : 0 < y := lt_of_lt_of_le hx h
    rw [if_neg hx.ne', if_pos hx, if_neg hy.ne', if_pos hy]
    exact round_pos_mono x y hx h

/-- Zero rounds to zero. -/
theorem binary64_zero : binary64 (0 : K) = 0 := by
  unfold binary64
  rw [if_pos rfl]

/-- A value half way above an even integer rounds to that integer. -/
theorem rne_eq_of_tie_even (y : K) (n : Int) (h : y = (n : K) + 1 / 2) (heven : n % 2 = 0) :
    rne y = n := by
  have hfl : ⌊y⌋ = n := by
    rw [Int.floor_eq_iff]; constructor <;> linarith
  unfold rne
  rw [hfl, if_neg (by linarith), if_neg (by linarith), if_pos heven]

/-- Evaluation of the rounding of a positive value half way above an even number of
units in the last place. -/
theorem round_pos_eq_tie (x : K) (e n : Int) (hlo : (2 : K) ^ e ≤ x)
    (hhi : x < (2 : K) ^ (e + 1)) (h : x = ((n : K) + 1 / 2) * (2 : K) ^ (e - 52))
    (heven : n % 2 = 0) :
    round_pos x = (n : K) * (2 : K) ^ (e - 52) := by
  have hu : (0 : K) < (2 : K) ^ (e - 52) := zpow_pos (by norm_num) _
  unfold round_pos
  rw [log_two_eq x e hlo hhi, rne_eq_of_tie_even _ n ((div_eq_iff hu.ne').mpr h) heven]

/-- Evaluation of `binary64` at a positive value half way above an even number of units in
the last place. -/
theorem binary64_eq_tie (x : K) (e n : Int) (hlo : (2 : K) ^ e ≤ x)
    (hhi : x < (2 : K) ^ (e + 1)) (h : x = ((n : K) + 1 / 2) * (2 : K) ^ (e - 52))
    (heven : n % 2 = 0) :
    binary64 x = (n : K) * (2 : K) ^ (e - 52) := by
  have hpos : 0 < x := lt_of_lt_of_le (zpow_pos (by norm_num) e) hlo
  unfold binary64
  rw [if_neg hpos.ne', if_pos hpos, round_pos_eq_tie x e n hlo hhi h heven]

end RoundingLemmas

/-! ## The integrator of `main` in `double`: intermediate values -/

/-- The rounding of one intermediate value of the runs of the integrator of `main` in
`double`. -/
theorem round_value_0 : binary64 (19 / 50 : ℝ) = 3422735716801577 / 9007199254740992 := by
  rw [binary64_eq (19 / 50 : ℝ) (-2) 6845471433603154 (by norm_num) (by norm_num) (by norm_num) (by norm_num)]
  norm_num

/-- The rounding of one intermediate value of the runs of the integrator of `main` in
`double`. -/
theorem round_value_1 : binary64 (733 / 500 : ℝ) = 6602277053725147 / 4503599627370496 := by
  rw [binary64_eq (733 / 500 : ℝ) (0) 6602277053725147 (by norm_num) (by norm_num) (by norm_num) (by norm_num)]
  norm_num

/-- The rounding of one intermediate value of the runs of the integrator of `main` in
`double`. -/
theorem round_value_2 : binary64 (3026655777876729913790092606235 / 2535301200456458802993406410752 : ℝ) = 2688210345770807 / 2251799813685248 := by
  rw [binary64_eq (3026655777876729913790092606235 / 2535301200456458802993406410752 : ℝ) (0) 5376420691541614 (by norm_num) (by norm_num) (by norm_num) (by norm_num)]
  norm_num

/-- The rounding of one intermediate value of the runs of the integrator of `main` in
`double`. -/
theorem round_value_3 : binary64 (176855943800711 / 2814749767106560 : ℝ) = 2263756080649101 / 36028797018963968 := by
  rw [binary64_eq (176855943800711 / 2814749767106560 : ℝ) (-4) 4527512161298202 (by norm_num) (by norm_num) (by norm_num) (by norm_num)]
  norm_num

/-- The rounding of one intermediate value of the runs of the integrator of `main` in
`double`. -/
theorem round_value_4 : binary64 (5376420691541614 / 6602277053725147 : ℝ) = 7334816768815299 / 9007199254740992 := by
  rw [binary64_eq (5376420691541614 / 6602277053725147 : ℝ) (-1) 7334816768815299 (by norm_num) (by norm_num) (by norm_num) (by norm_num)]
  norm_num

/-- The rounding of one intermediate value of the runs of the integrator of `main` in
`double`. -/
theorem round_value_5 : binary64 (2263756080649101 / 9007199254740992 : ℝ) = 2263756080649101 / 9007199254740992 := by
  rw [binary64_eq (2263756080649101 / 9007199254740992 : ℝ) (-2) 4527512161298202 (by norm_num) (by norm_num) (by norm_num) (by norm_num)]
  norm_num

/-- The rounding of one intermediate value of the runs of the integrator of `main` in
`double`. -/
theorem round_value_6 : binary64 (11318780403245505 / 36028797018963968 : ℝ) = 176855943800711 / 562949953421312 := by
  rw [binary64_eq_tie (11318780403245505 / 36028797018963968 : ℝ) (-2) 5659390201622752 (by norm_num) (by norm_num) (by norm_num) (by decide)]
  norm_num

/-- The rounding of one intermediate value of the runs of the integrator of `main` in
`double`. -/
theorem round_value_7 : binary64 (565939020162275 / 9007199254740992 : ℝ) = 565939020162275 / 9007199254740992 := by
  rw [binary64_eq (565939020162275 / 9007199254740992 : ℝ) (-4) 4527512161298200 (by norm_num) (by norm_num) (by norm_num) (by norm_num)]
  norm_num

/-- The rounding of one intermediate value of the runs of the integrator of `main` in
`double`. -/
theorem round_value_8 : binary64 (4151059015213154268226482645225 / 81129638414606681695789005144064 : ℝ) = 7373762072427955 / 144115188075855872 := by
  rw [binary64_eq (4151059015213154268226482645225 / 81129638414606681695789005144064 : ℝ) (-5) 7373762072427955 (by norm_num) (by norm_num) (by norm_num) (by norm_num)]
  norm_num

/-- The rounding of one intermediate value of the runs of the integrator of `main` in
`double`. -/
theorem round_value_9 : binary64 (7373762072427955 / 144115188075855872 : ℝ) = 7373762072427955 / 144115188075855872 := by
  rw [binary64_eq (7373762072427955 / 144115188075855872 : ℝ) (-5) 7373762072427955 (by norm_num) (by norm_num) (by norm_num) (by norm_num)]
  norm_num

/-- The rounding of one intermediate value of the runs of the integrator of `main` in
`double`. -/
theorem round_value_10 : binary64 (2263756080649101 / 36028797018963968 : ℝ) = 2263756080649101 / 36028797018963968 := by
  rw [binary64_eq (2263756080649101 / 36028797018963968 : ℝ) (-4) 4527512161298202 (by norm_num) (by norm_num) (by norm_num) (by norm_num)]
  norm_num

/-- The rounding of one intermediate value of the runs of the integrator of `main` in
`double`. -/
theorem round_value_11 : binary64 (16604236060852624407722699396199 / 324518553658426726783156020576256 : ℝ) = 3686881036213979 / 72057594037927936 := by
  rw [binary64_eq (16604236060852624407722699396199 / 324518553658426726783156020576256 : ℝ) (-5) 7373762072427958 (by norm_num) (by norm_num) (by norm_num) (by norm_num)]
  norm_num

/-- The rounding of one intermediate value of the runs of the integrator of `main` in
`double`. -/
theorem round_value_12 : binary64 (3 / 144115188075855872 : ℝ) = 3 / 144115188075855872 := by
  rw [binary64_eq (3 / 144115188075855872 : ℝ) (-56) 6755399441055744 (by norm_num) (by norm_num) (by norm_num) (by norm_num)]
  norm_num

/-- The rounding of one intermediate value of the runs of the integrator of `main` in
`double`. -/
theorem round_value_13 : binary64 (905502432259640317 / 144115188075855872 : ℝ) = 884279719003555 / 140737488355328 := by
  rw [binary64_eq (905502432259640317 / 144115188075855872 : ℝ) (2) 7074237752028440 (by norm_num) (by norm_num) (by norm_num) (by norm_num)]
  norm_num

/-- The rounding of one intermediate value of the runs of the integrator of `main` in
`double`. -/
theorem round_value_14 : binary64 (3686881036213979 / 72057594037927936 : ℝ) = 3686881036213979 / 72057594037927936 := by
  rw [binary64_eq (3686881036213979 / 72057594037927936 : ℝ) (-5) 7373762072427958 (by norm_num) (by norm_num) (by norm_num) (by norm_num)]
  norm_num

/-- The rounding of one intermediate value of the runs of the integrator of `main` in
`double`. -/
theorem round_value_15 : binary64 (2263756080649101 / 18014398509481984 : ℝ) = 2263756080649101 / 18014398509481984 := by
  rw [binary64_eq (2263756080649101 / 18014398509481984 : ℝ) (-3) 4527512161298202 (by norm_num) (by norm_num) (by norm_num) (by norm_num)]
  norm_num

/-- The rounding of one intermediate value of the runs of the integrator of `main` in
`double`. -/
theorem round_value_16 : binary64 (16604236060852624407722699396199 / 162259276829213363391578010288128 : ℝ) = 3686881036213979 / 36028797018963968 := by
  rw [binary64_eq (16604236060852624407722699396199 / 162259276829213363391578010288128 : ℝ) (-4) 7373762072427958 (by norm_num) (by norm_num) (by norm_num) (by norm_num)]
  norm_num

/-- The rounding of one intermediate value of the runs of the integrator of `main` in
`double`. -/
theorem round_value_17 : binary64 (449064335093606181 / 72057594037927936 : ℝ) = 7016630235837597 / 1125899906842624 := by
  rw [binary64_eq (449064335093606181 / 72057594037927936 : ℝ) (2) 7016630235837597 (by norm_num) (by norm_num) (by norm_num) (by norm_num)]
  norm_num

/-- The rounding of one intermediate value of the runs of the integrator of `main` in
`double`. -/
theorem round_value_18 : binary64 (228219048583017083 / 36028797018963968 : ℝ) = 1782961317054821 / 281474976710656 := by
  rw [binary64_eq (228219048583017083 / 36028797018963968 : ℝ) (2) 7131845268219284 (by norm_num) (by norm_num) (by norm_num) (by norm_num)]
  norm_num

/-- The rounding of one intermediate value of the runs of the integrator of `main` in
`double`. -/
theorem round_value_19 : binary64 (14401879047711 / 281474976710656 : ℝ) = 14401879047711 / 281474976710656 := by
  rw [binary64_eq (14401879047711 / 281474976710656 : ℝ) (-5) 7373762072428032 (by norm_num) (by norm_num) (by norm_num) (by norm_num)]
  norm_num

/-- The rounding of one intermediate value of the runs of the integrator of `main` in
`double`. -/
theorem round_value_20 : binary64 (884279719003555 / 140737488355328 : ℝ) = 884279719003555 / 140737488355328 := by
  rw [binary64_eq (884279719003555 / 140737488355328 : ℝ) (2) 7074237752028440 (by norm_num) (by norm_num) (by norm_num) (by norm_num)]
  norm_num

/-- The rounding of one intermediate value of the runs of the integrator of `main` in
`double`. -/
theorem round_value_21 : binary64 (884279719003555 / 70368744177664 : ℝ) = 884279719003555 / 70368744177664 := by
  rw [binary64_eq (884279719003555 / 70368744177664 : ℝ) (3) 7074237752028440 (by norm_num) (by norm_num) (by norm_num) (by norm_num)]
  norm_num

/-- The geometry of the integrator of `main` in `double`. -/
theorem main_fl_geometry :
    (ddr_position_fl (double_math Real.cos Real.sin) binary64).wh_radius
      = 2688210345770807 / 2251799813685248 ∧
    (ddr_position_fl (double_math Real.cos Real.sin) binary64).axle_length
      = 6602277053725147 / 4503599627370496 ∧
    (ddr_position_fl (double_math Real.cos Real.sin) binary64).angle_per_tick
      = 2263756080649101 / 36028797018963968 := by
  refine ⟨?_, ?_, ?_⟩
  · norm_num [ddr_position_fl, DiffDrive.new_fl, double_math, round_value_0, round_value_1, round_value_2, round_value_3, round_value_4, round_value_5, round_value_6, round_value_7, round_value_8, round_value_9, round_value_10, round_value_11, round_value_12, round_value_13, round_value_14, round_value_15, round_value_16, round_value_17, round_value_18, round_value_19, round_value_20, round_value_21]
  · norm_num [ddr_position_fl, DiffDrive.new_fl, double_math, round_value_0, round_value_1, round_value_2, round_value_3, round_value_4, round_value_5, round_value_6, round_value_7, round_value_8, round_value_9, round_value_10, round_value_11, round_value_12, round_value_13, round_value_14, round_value_15, round_value_16, round_value_17, round_value_18, round_value_19, round_value_20, round_value_21]
  · norm_num [ddr_position_fl, DiffDrive.new_fl, double_math, round_value_0, round_value_1, round_value_2, round_value_3, round_value_4, round_value_5, round_value_6, round_value_7, round_value_8, round_value_9, round_value_10, round_value_11, round_value_12, round_value_13, round_value_14, round_value_15, round_value_16, round_value_17, round_value_18, round_value_19, round_value_20, round_value_21]

/-- The rotations that an integrator with the geometry of `main` computes in `double` for
five pairs of tick deltas. -/
theorem main_fl_rotations (s : DiffDrive ℝ)
    (hw : s.wh_radius = 2688210345770807 / 2251799813685248)
    (hl : s.axle_length = 6602277053725147 / 4503599627370496)
    (ha : s.angle_per_tick = 2263756080649101 / 36028797018963968) :
    s.delta_z_rot_fl binary64 4 5 = 7373762072427955 / 144115188075855872 ∧
    s.delta_z_rot_fl binary64 1 0 = -(3686881036213979 / 72057594037927936) ∧
    s.delta_z_rot_fl binary64 0 1 = 3686881036213979 / 72057594037927936 ∧
    s.delta_z_rot_fl binary64 1 (-1) = -(3686881036213979 / 36028797018963968) ∧
    s.delta_z_rot_fl binary64 (-1) 1 = 3686881036213979 / 36028797018963968 := by
  refine ⟨?_, ?_, ?_, ?_, ?_⟩
  · norm_num [DiffDrive.delta_z_rot_fl, hw, hl, ha, binary64_neg, binary64_zero, round_value_0, round_value_1, round_value_2, round_value_3, round_value_4, round_value_5, round_value_6, round_value_7, round_value_8, round_value_9, round_value_10, round_value_11, round_value_12, round_value_13, round_value_14, round_value_15, round_value_16, round_value_17, round_value_18, round_value_19, round_value_20, round_value_21]
  · norm_num [DiffDrive.delta_z_rot_fl, hw, hl, ha, binary64_neg, binary64_zero, round_value_0, round_value_1, round_value_2, round_value_3, round_value_4, round_value_5, round_value_6, round_value_7, round_value_8, round_value_9, round_value_10, round_value_11, round_value_12, round_value_13, round_value_14, round_value_15, round_value_16, round_value_17, round_value_18, round_value_19, round_value_20, round_value_21]
  · norm_num [DiffDrive.delta_z_rot_fl, hw, hl, ha, binary64_neg, binary64_zero, round_value_0, round_value_1, round_value_2, round_value_3, round_value_4, round_value_5, round_value_6, round_value_7, round_value_8, round_value_9, round_value_10, round_value_11, round_value_12, round_value_13, round_value_14, round_value_15, round_value_16, round_value_17, round_value_18, round_value_19, round_value_20, round_value_21]
  · norm_num [DiffDrive.delta_z_rot_fl, hw, hl, ha, binary64_neg, binary64_zero, round_value_0, round_value_1, round_value_2, round_value_3, round_value_4, round_value_5, round_value_6, round_value_7, round_value_8, round_value_9, round_value_10, round_value_11, round_value_12, round_value_13, round_value_14, round_value_15, round_value_16, round_value_17, round_value_18, round_value_19, round_value_20, round_value_21]
  · norm_num [DiffDrive.delta_z_rot_fl, hw, hl, ha, binary64_neg, binary64_zero, round_value_0, round_value_1, round_value_2, round_value_3, round_value_4, round_value_5, round_value_6, round_value_7, round_value_8, round_value_9, round_value_10, round_value_11, round_value_12, round_value_13, round_value_14, round_value_15, round_value_16, round_value_17, round_value_18, round_value_19, round_value_20, round_value_21]

/-- The normalised additions of `angle_add` in `double` along the two runs. -/
theorem main_fl_headings :
    DiffDrive.angle_add_fl (double_math Real.cos Real.sin) binary64 0
        (7373762072427955 / 144115188075855872) = 7373762072427955 / 144115188075855872 ∧
    DiffDrive.angle_add_fl (double_math Real.cos Real.sin) binary64
        (7373762072427955 / 144115188075855872) (-(3686881036213979 / 72057594037927936))
      = 884279719003555 / 140737488355328 ∧
    DiffDrive.angle_add_fl (double_math Real.cos Real.sin) binary64 0
        (3686881036213979 / 72057594037927936) = 3686881036213979 / 72057594037927936 ∧
    DiffDrive.angle_add_fl (double_math Real.cos Real.sin) binary64
        (3686881036213979 / 72057594037927936) (-(3686881036213979 / 36028797018963968))
      = 7016630235837597 / 1125899906842624 ∧
    DiffDrive.angle_add_fl (double_math Real.cos Real.sin) binary64
        (7016630235837597 / 1125899906842624) (3686881036213979 / 36028797018963968)
      = 14401879047711 / 281474976710656 := by
  refine ⟨?_, ?_, ?_, ?_, ?_⟩
  · norm_num [DiffDrive.angle_add_fl, double_math, binary64_neg, binary64_zero, round_value_0, round_value_1, round_value_2, round_value_3, round_value_4, round_value_5, round_value_6, round_value_7, round_value_8, round_value_9, round_value_10, round_value_11, round_value_12, round_value_13, round_value_14, round_value_15, round_value_16, round_value_17, round_value_18, round_value_19, round_value_20, round_value_21]
  · norm_num [DiffDrive.angle_add_fl, double_math, binary64_neg, binary64_zero, round_value_0, round_value_1, round_value_2, round_value_3, round_value_4, round_value_5, round_value_6, round_value_7, round_value_8, round_value_9, round_value_10, round_value_11, round_value_12, round_value_13, round_value_14, round_value_15, round_value_16, round_value_17, round_value_18, round_value_19, round_value_20, round_value_21]
  · norm_num [DiffDrive.angle_add_fl, double_math, binary64_neg, binary64_zero, round_value_0, round_value_1, round_value_2, round_value_3, round_value_4, round_value_5, round_value_6, round_value_7, round_value_8, round_value_9, round_value_10, round_value_11, round_value_12, round_value_13, round_value_14, round_value_15, round_value_16, round_value_17, round_value_18, round_value_19, round_value_20, round_value_21]
  · norm_num [DiffDrive.angle_add_fl, double_math, binary64_neg, binary64_zero, round_value_0, round_value_1, round_value_2, round_value_3, round_value_4, round_value_5, round_value_6, round_value_7, round_value_8, round_value_9, round_value_10, round_value_11, round_value_12, round_value_13, round_value_14, round_value_15, round_value_16, round_value_17, round_value_18, round_value_19, round_value_20, round_value_21]
  · norm_num [DiffDrive.angle_add_fl, double_math, binary64_neg, binary64_zero, round_value_0, round_value_1, round_value_2, round_value_3, round_value_4, round_value_5, round_value_6, round_value_7, round_value_8, round_value_9, round_value_10, round_value_11, round_value_12, round_value_13, round_value_14, round_value_15, round_value_16, round_value_17, round_value_18, round_value_19, round_value_20, round_value_21]

/-! ## The integrator with rounded arithmetic: heading range and round trip -/

section RoundedLemmas

variable {K : Type} [LinearOrderedField K]

/-- With a monotone rounding that leaves `0`, `2π`, `4π` and `-2π` unchanged, `angle_add`
maps a heading in `[0, 2π]` and a turn shorter than a revolution into `[0, 2π]`. -/
theorem angle_add_fl_range (m : CMath K) (fl : K → K) (a b : K) (hmono : Monotone fl)
    (h0 : fl 0 = 0) (h2 : fl (2 * m.M_PI) = 2 * m.M_PI) (h4 : fl (4 * m.M_PI) = 4 * m.M_PI)
    (hn2 : fl (-(2 * m.M_PI)) = -(2 * m.M_PI))
    (ha0 : 0 ≤ a) (ha1 : a ≤ 2 * m.M_PI) (hb : |b| < 2 * m.M_PI) :
    0 ≤ DiffDrive.angle_add_fl m fl a b ∧ DiffDrive.angle_add_fl m fl a b ≤ 2 * m.M_PI := by
  have hb' := abs_lt.mp hb
  have hlo : -(2 * m.M_PI) ≤ fl (a + b) := by
    rw [← hn2]; exact hmono (by linarith)
  have hhi : fl (a + b) ≤ 4 * m.M_PI := by
    rw [← h4]; exact hmono (by linarith)
  unfold DiffDrive.angle_add_fl
  split_ifs with h1 h3
  · constructor
    · rw [← h0]; exact hmono (by linarith)
    · rw [← h2]; exact hmono (by linarith)
  · constructor
    · rw [← h0]; exact hmono (by linarith)
    · rw [← h2]; exact hmono (by linarith)
  · exact ⟨not_lt.mp h3, (not_le.mp h1).le⟩

/-- The heading after a call is `angle_add` of the heading before and the rotation. -/
theorem get_new_transform_fl_heading (m : CMath K) (fl : K → K) (s : DiffDrive K)
    (dr dl : Int) :
    (s.get_new_transform_fl m fl dr dl).world_z_rot
      = DiffDrive.angle_add_fl m fl s.world_z_rot (s.delta_z_rot_fl fl dr dl) := rfl

/-- The heading range `[0, 2π]` is kept by a sequence of calls each of which turns by less
than a full revolution. -/
theorem run_steps_fl_heading_range (m : CMath K) (fl : K → K) (hmono : Monotone fl)
    (h0 : fl 0 = 0) (h2 : fl (2 * m.M_PI) = 2 * m.M_PI) (h4 : fl (4 * m.M_PI) = 4 * m.M_PI)
    (hn2 : fl (-(2 * m.M_PI)) = -(2 * m.M_PI)) (steps : List (Int × Int)) :
    ∀ s : DiffDrive K, 0 ≤ s.world_z_rot → s.world_z_rot ≤ 2 * m.M_PI →
      DiffDrive.small_rotations_fl m fl s steps →
      0 ≤ (DiffDrive.run_steps_fl m fl s steps).world_z_rot ∧
        (DiffDrive.run_steps_fl m fl s steps).world_z_rot ≤ 2 * m.M_PI := by
  induction steps with
  | nil => intro s hs0 hs1 _; exact ⟨hs0, hs1⟩
  | cons p rest ih =>
    intro s hs0 hs1 hs
    obtain ⟨dr, dl⟩ := p
    obtain ⟨hsmall, hrest⟩ := hs
    have hstep := angle_add_fl_range m fl s.world_z_rot (s.delta_z_rot_fl fl dr dl) hmono
      h0 h2 h4 hn2 hs0 hs1 hsmall
    exact ih (s.get_new_transform_fl m fl dr dl) hstep.1 hstep.2 hrest

/-- C2, as amended: with every `double` operation rounded by a monotone rounding that leaves
`0`, `2π`, `4π` and `-2π` unchanged (`2π` being the `double` `2*M_PI`), from the initial pose
of a constructed integrator, after every sequence of `get_new_transform` calls each of which
turns by less than a full revolution (`|delta_z_rot| < 2π`), the heading `world_z_rot` lies
in `[0, 2π]`, both ends included. -/
theorem heading_in_closed_range (m : CMath K) (fl : K → K) (r L : K) (n : Int)
    (steps : List (Int × Int)) (hpi : 0 < m.M_PI) (hmono : Monotone fl) (h0 : fl 0 = 0)
    (h2 : fl (2 * m.M_PI) = 2 * m.M_PI) (h4 : fl (4 * m.M_PI) = 4 * m.M_PI)
    (hn2 : fl (-(2 * m.M_PI)) = -(2 * m.M_PI))
    (hsmall : DiffDrive.small_rotations_fl m fl (DiffDrive.new_fl m fl r n L) steps) :
    0 ≤ (DiffDrive.run_steps_fl m fl (DiffDrive.new_fl m fl r n L) steps).world_z_rot ∧
    (DiffDrive.run_steps_fl m fl (DiffDrive.new_fl m fl r n L) steps).world_z_rot
      ≤ 2 * m.M_PI :=
  run_steps_fl_heading_range m fl hmono h0 h2 h4 hn2 steps (DiffDrive.new_fl m fl r n L)
    (le_refl 0) (mul_pos two_pos hpi).le hsmall

end RoundedLemmas

/-! ## The integrator of `main` in `double`: the two runs -/

/-- The run of the integrator of `main` in `double` on the deltas `(4, 5)` and `(1, 0)`:
the heading after the first call, the rotation of the second call and the heading after it. -/
theorem main_fl_after_4_5 :
    ((ddr_position_fl (double_math Real.cos Real.sin) binary64).get_new_transform_fl
        (double_math Real.cos Real.sin) binary64 4 5).world_z_rot
      = 7373762072427955 / 144115188075855872 ∧
    ((ddr_position_fl (double_math Real.cos Real.sin) binary64).get_new_transform_fl
        (double_math Real.cos Real.sin) binary64 4 5).delta_z_rot_fl binary64 1 0
      = -(3686881036213979 / 72057594037927936) ∧
    (((ddr_position_fl (double_math Real.cos Real.sin) binary64).get_new_transform_fl
        (double_math Real.cos Real.sin) binary64 4 5).get_new_transform_fl
        (double_math Real.cos Real.sin) binary64 1 0).world_z_rot
      = 884279719003555 / 140737488355328 := by
  obtain ⟨hw, hl, ha⟩ := main_fl_geometry
  have hr0 := main_fl_rotations (ddr_position_fl (double_math Real.cos Real.sin) binary64)
    hw hl ha
  have hr1 := main_fl_rotations
    ((ddr_position_fl (double_math Real.cos Real.sin) binary64).get_new_transform_fl
      (double_math Real.cos Real.sin) binary64 4 5) hw hl ha
  have hh := main_fl_headings
  have h1 : ((ddr_position_fl (double_math Real.cos Real.sin) binary64).get_new_transform_fl
        (double_math Real.cos Real.sin) binary64 4 5).world_z_rot
      = 7373762072427955 / 144115188075855872 := by
    rw [get_new_transform_fl_heading, hr0.1]
    exact hh.1
  refine ⟨h1, hr1.2.1, ?_⟩
  rw [get_new_transform_fl_heading, hr1.2.1, h1]
  exact hh.2.1

/-- C16: in `double`, the integrator of `main` after `get_new_transform(4, 5)` has a heading
in `[0, 2π)`, the call `get_new_transform(1, 0)` turns by less than a revolution, and the
heading after it is exactly `2*M_PI`: one normalising addition has left `[0, 2π)`. -/
theorem heading_wraps_to_two_pi :
    0 ≤ ((ddr_position_fl (double_math Real.cos Real.sin) binary64).get_new_transform_fl
        (double_math Real.cos Real.sin) binary64 4 5).world_z_rot ∧
    ((ddr_position_fl (double_math Real.cos Real.sin) binary64).get_new_transform_fl
        (double_math Real.cos Real.sin) binary64 4 5).world_z_rot
      < 2 * (double_math Real.cos Real.sin).M_PI ∧
    |((ddr_position_fl (double_math Real.cos Real.sin) binary64).get_new_transform_fl
        (double_math Real.cos Real.sin) binary64 4 5).delta_z_rot_fl binary64 1 0|
      < 2 * (double_math Real.cos Real.sin).M_PI ∧
    (((ddr_position_fl (double_math Real.cos Real.sin) binary64).get_new_transform_fl
        (double_math Real.cos Real.sin) binary64 4 5).get_new_transform_fl
        (double_math Real.cos Real.sin) binary64 1 0).world_z_rot
      = 2 * (double_math Real.cos Real.sin).M_PI := by
  obtain ⟨h1, h2, h3⟩ := main_fl_after_4_5
  rw [h1, h2, h3]
  norm_num [double_math, abs_of_pos]

/-- In `double`, the deltas `(4, 5)` and `(1, 0)` are two turns of the integrator of `main` of
less than a revolution each. -/
theorem main_fl_small_rotations :
    DiffDrive.small_rotations_fl (double_math Real.cos Real.sin) binary64
      (DiffDrive.new_fl (double_math Real.cos Real.sin) binary64
        (binary64 (binary64 0.38 * (double_math Real.cos Real.sin).M_PI)) 100 (binary64 1.466))
      [(4, 5), (1, 0)] := by
  obtain ⟨hw, hl, ha⟩ := main_fl_geometry
  have hr0 := main_fl_rotations (ddr_position_fl (double_math Real.cos Real.sin) binary64)
    hw hl ha
  obtain ⟨-, h2, -⟩ := main_fl_after_4_5
  refine ⟨?_, ?_, trivial⟩
  · show |(ddr_position_fl (double_math Real.cos Real.sin) binary64).delta_z_rot_fl
        binary64 4 5| < _
    rw [hr0.1]
    norm_num [double_math, abs_of_pos]
  · show |((ddr_position_fl (double_math Real.cos Real.sin) binary64).get_new_transform_fl
        (double_math Real.cos Real.sin) binary64 4 5).delta_z_rot_fl binary64 1 0| < _
    rw [h2]
    norm_num [double_math, abs_of_pos]

/-- The `double`s `2*M_PI`, `4*M_PI` and `-2*M_PI` are unchanged by the rounding. -/
theorem double_fixed_points :
    binary64 (2 * (double_math Real.cos Real.sin).M_PI)
      = 2 * (double_math Real.cos Real.sin).M_PI ∧
    binary64 (4 * (double_math Real.cos Real.sin).M_PI)
      = 4 * (double_math Real.cos Real.sin).M_PI ∧
    binary64 (-(2 * (double_math Real.cos Real.sin).M_PI))
      = -(2 * (double_math Real.cos Real.sin).M_PI) := by
  refine ⟨?_, ?_, ?_⟩
  · norm_num [double_math, round_value_0, round_value_1, round_value_2, round_value_3, round_value_4, round_value_5, round_value_6, round_value_7, round_value_8, round_value_9, round_value_10, round_value_11, round_value_12, round_value_13, round_value_14, round_value_15, round_value_16, round_value_17, round_value_18, round_value_19, round_value_20, round_value_21]
  · norm_num [double_math, round_value_0, round_value_1, round_value_2, round_value_3, round_value_4, round_value_5, round_value_6, round_value_7, round_value_8, round_value_9, round_value_10, round_value_11, round_value_12, round_value_13, round_value_14, round_value_15, round_value_16, round_value_17, round_value_18, round_value_19, round_value_20, round_value_21]
  · norm_num [double_math, binary64_neg, round_value_0, round_value_1, round_value_2, round_value_3, round_value_4, round_value_5, round_value_6, round_value_7, round_value_8, round_value_9, round_value_10, round_value_11, round_value_12, round_value_13, round_value_14, round_value_15, round_value_16, round_value_17, round_value_18, round_value_19, round_value_20, round_value_21]

/-- Witness of C2: the rounding `binary64` and the integrator of `main` on the deltas
`(4, 5)` and `(1, 0)`, where the heading ends on `2*M_PI`. -/
theorem heading_in_closed_range_witness :
    Monotone (binary64 : ℝ → ℝ) ∧
    (DiffDrive.run_steps_fl (double_math Real.cos Real.sin) binary64
      (DiffDrive.new_fl (double_math Real.cos Real.sin) binary64
        (binary64 (binary64 0.38 * (double_math Real.cos Real.sin).M_PI)) 100 (binary64 1.466))
      [(4, 5), (1, 0)]).world_z_rot ≤ 2 * (double_math Real.cos Real.sin).M_PI :=
  ⟨binary64_mono, (heading_in_closed_range (double_math Real.cos Real.sin) binary64
    (binary64 (binary64 0.38 * (double_math Real.cos Real.sin).M_PI)) (binary64 1.466) 100
    [(4, 5), (1, 0)] (by norm_num [double_math]) binary64_mono binary64_zero
    double_fixed_points.1 double_fixed_points.2.1 double_fixed_points.2.2
    main_fl_small_rotations).2⟩

end EncoderOdom
